import Mathlib

/-!
# cpu-usage: a shallow embedding of `cpu-usage.c`

The development follows the single source file `cpu-usage.c`: the loop body of
`main` (double buffer of samples, read of the aggregate line of `/proc/stat`,
percentage and block level, glyph bytes, scrolling graph, display and the two
files), its start-up and exit status, and `count_cpus`.

Conventions of the embedding.

* C integers (`int`, `long`, `long long`) are integers of `ℤ`; `/` of C is the
  truncating division `Int.tdiv`.  Signed overflow is undefined in C, so the
  embedding describes the executions in which every intermediate value is
  representable in its type; `strtol`, which is defined beyond the range of
  `long`, keeps its saturation.
* A pointer into `buf` is its offset, a natural number.
* Text is a list of characters; the end of a list plays the part of the
  terminating NUL of a C string.
* Bytes of the `char` arrays `graph` and `spot`, of the two files and of the
  display stream are natural numbers below 256; a file is the list of its bytes.
* What the system calls return is an input of the embedding: the time, the
  feed read, which calls fail, the values `write` returns.
* A division by zero is a result of its own (`trap`), never a value.
-/

namespace CpuUsage

/-! ## Constants of the source -/

/-- The macro `U_PER_S`: microseconds in a second. -/
def U_PER_S : Int := 1000000

/-- The local `clk_tck_u` of `main`: `U_PER_S / clk_tck`, microseconds in a clock tick. -/
def clk_tck_u (clk_tck : Int) : Int := Int.tdiv U_PER_S clk_tck

/-! ## The double buffer of samples -/

/-- The C type `struct timeval`. -/
structure Timeval where
  tv_sec : Int
  tv_usec : Int
deriving DecidableEq, Repr

/-- The target of the pointers `t_p` and `work_p`: slot a or slot b. -/
inductive Slot where
  | a
  | b
deriving DecidableEq, Repr

/-- The locals `t_a`, `t_b`, `work_a`, `work_b`, `t_p`, `work_p` of `main`. -/
structure Samples where
  t_a : Timeval
  t_b : Timeval
  work_a : Int
  work_b : Int
  t_p : Slot
  work_p : Slot
deriving DecidableEq, Repr

/-- The state of the double buffer when the loop is entered (lines 176-184). -/
def Samples.init : Samples :=
  { t_a := ⟨0, 0⟩, t_b := ⟨0, 0⟩, work_a := 0, work_b := 0, t_p := Slot.a, work_p := Slot.a }

/-- Lines 194-201, "flip the buffers": both pointers move to the other slot. -/
def flipBuffers (s : Samples) : Samples :=
  if s.t_p = Slot.a then { s with t_p := Slot.b, work_p := Slot.b }
  else { s with t_p := Slot.a, work_p := Slot.a }

/-- Line 211, `gettimeofday(t_p, NULL)` when it succeeds with the time `now`. -/
def recordTime (s : Samples) (now : Timeval) : Samples :=
  match s.t_p with
  | Slot.a => { s with t_a := now }
  | Slot.b => { s with t_b := now }

/-- Line 243, `*work_p = work`. -/
def recordWork (s : Samples) (work : Int) : Samples :=
  match s.work_p with
  | Slot.a => { s with work_a := work }
  | Slot.b => { s with work_b := work }

/-- The sampling part of one tick: flip, record the time, record the work. -/
def sample (s : Samples) (now : Timeval) (work : Int) : Samples :=
  recordWork (recordTime (flipBuffers s) now) work

/-! ## Percentage and block level (lines 245-271, `USE_MICRO_SECONDS` is 1) -/

/-- Line 247: `work_d = work_a - work_b`. -/
def work_d (s : Samples) : Int := s.work_a - s.work_b

/-- Lines 252-253: a `struct timeval` in microseconds. -/
def micro (t : Timeval) : Int := t.tv_sec * U_PER_S + t.tv_usec

/-- Line 254: `t_d_micro = t_a_micro - t_b_micro`. -/
def t_d_micro (s : Samples) : Int := micro s.t_a - micro s.t_b

/-- Line 255: `full_ticks_d_micro = (t_d_micro / clk_tck_u) * cpu_count`. -/
def full_ticks_d_micro (clk_tck cpu_count : Int) (s : Samples) : Int :=
  Int.tdiv (t_d_micro s) (clk_tck_u clk_tck) * cpu_count

/-- The pair `cpu_perc`, `cpu_block` of a tick that is not skipped. -/
structure Usage where
  cpu_perc : Int
  cpu_block : Int
deriving DecidableEq, Repr

/-- Lines 264-271: `none` is the `continue` of a skipped tick, otherwise the
percentage and the block level are computed from slot a minus slot b. -/
def calculate (clk_tck cpu_count : Int) (s : Samples) : Option Usage :=
  if full_ticks_d_micro clk_tck cpu_count s = 0 then none
  else some
    { cpu_perc := Int.tdiv (work_d s * 100) (full_ticks_d_micro clk_tck cpu_count s)
      cpu_block := Int.tdiv (work_d s * 9) (full_ticks_d_micro clk_tck cpu_count s) }

/-! ### The slot written on this tick and the other one -/

/-- A sample as the specification names it: a timestamp and the work. -/
structure Sample where
  timestamp : Timeval
  work : Int
deriving DecidableEq, Repr

/-- The sample in the slot `t_p` points to: the one written on this tick. -/
def current (s : Samples) : Sample :=
  match s.t_p with
  | Slot.a => ⟨s.t_a, s.work_a⟩
  | Slot.b => ⟨s.t_b, s.work_b⟩

/-- The sample in the other slot. -/
def previous (s : Samples) : Sample :=
  match s.t_p with
  | Slot.a => ⟨s.t_b, s.work_b⟩
  | Slot.b => ⟨s.t_a, s.work_a⟩

/-- The full capacity as the specification writes it:
`((current.timestamp - previous.timestamp) / microsPerTick) * cpuCount`. -/
def fullCapacity (clk_tck cpu_count : Int) (cur prev : Sample) : Int :=
  Int.tdiv (micro cur.timestamp - micro prev.timestamp) (clk_tck_u clk_tck) * cpu_count

/-- The calculator as the specification writes it, from current minus previous. -/
def specCalc (clk_tck cpu_count : Int) (cur prev : Sample) : Option Usage :=
  if fullCapacity clk_tck cpu_count cur prev = 0 then none
  else some
    { cpu_perc := Int.tdiv ((cur.work - prev.work) * 100) (fullCapacity clk_tck cpu_count cur prev)
      cpu_block := Int.tdiv ((cur.work - prev.work) * 9) (fullCapacity clk_tck cpu_count cur prev) }

/-! ## Reading the aggregate line (lines 215-243) -/

/-- The white-space characters `strtol` skips (`isspace` in the C locale). -/
def isspace (c : Char) : Bool :=
  c = ' ' || c = '\t' || c = '\n' || c = '\x0b' || c = '\x0c' || c = '\r'

/-- A decimal digit, `c >= '0' && c <= '9'`. -/
def isdigit (c : Char) : Bool := decide ('0' ≤ c) && decide (c ≤ '9')

/-- The value of a digit character. -/
def digitVal (c : Char) : Int := (c.toNat : Int) - 48

/-- The bytes a C string function sees in a piece of memory: those before the first NUL. -/
def cstr (mem : List Char) : List Char := mem.takeWhile (fun c => c != Char.ofNat 0)

/-- The library function `strchr(buf, c)`: the offset of the first `c`, `none` for NULL. -/
def strchr : List Char → Char → Option Nat
  | [], _ => none
  | x :: xs, c => if x = c then some 0 else (strchr xs c).map (· + 1)

/-- The largest `long`, for the 64-bit `long` of Linux. -/
def LONG_MAX : Int := 9223372036854775807

/-- The smallest `long`. -/
def LONG_MIN : Int := -9223372036854775808

/-- The library function `strtol(buf + nptr, &e, 10)`: the value and the offset `e`.
White space is skipped, a sign is optional, the digits that follow are converted;
when there is no digit the value is 0 and `e` is `nptr` itself; a value out of the
range of `long` is replaced by the nearest bound. -/
def strtol (buf : List Char) (nptr : Nat) : Int × Nat :=
  let s := buf.drop nptr
  let ws := (s.takeWhile isspace).length
  let s1 := s.dropWhile isspace
  let neg := s1.head? = some '-'
  let sg := if s1.head? = some '-' ∨ s1.head? = some '+' then 1 else 0
  let ds := (s1.drop sg).takeWhile isdigit
  if ds.length = 0 then (0, nptr)
  else
    let v := ds.foldl (fun acc c => acc * 10 + digitVal c) 0
    (if neg then max (-v) LONG_MIN else min v LONG_MAX, nptr + ws + sg + ds.length)

/-- The seven counters read from the aggregate line. -/
structure Counters where
  user : Int
  nice : Int
  system : Int
  idle : Int
  iowait : Int
  irq : Int
  softirq : Int
deriving DecidableEq, Repr

/-- How lines 220-232 end: `noSpace` is the `break` of `if (!p)`, `parsingFailed` is
a `perror(parsing_failed); break;`, `ok` carries the seven counters. -/
inductive ReadResult where
  | noSpace
  | parsingFailed
  | ok (c : Counters)
deriving DecidableEq, Repr

/-- Lines 223-232 on the C string `buf`: `p = strchr(buf, ' ')`, then seven calls of
`strtol`, each followed by the test `e <= p` against that same `p`. -/
def parseCounters (buf : List Char) : ReadResult :=
  match strchr buf ' ' with
  | none => ReadResult.noSpace
  | some p =>
    let (user, e) := strtol buf p
    if e ≤ p then ReadResult.parsingFailed else
    let (nice, e) := strtol buf e
    if e ≤ p then ReadResult.parsingFailed else
    let (system, e) := strtol buf e
    if e ≤ p then ReadResult.parsingFailed else
    let (idle, e) := strtol buf e
    if e ≤ p then ReadResult.parsingFailed else
    let (iowait, e) := strtol buf e
    if e ≤ p then ReadResult.parsingFailed else
    let (irq, e) := strtol buf e
    if e ≤ p then ReadResult.parsingFailed else
    let (softirq, e) := strtol buf e
    if e ≤ p then ReadResult.parsingFailed else
    ReadResult.ok ⟨user, nice, system, idle, iowait, irq, softirq⟩

/-- The memory at `buf` after `read(proc_stat, buf, sizeof(buf)-1)` from offset 0 of a
feed: its first 219 bytes, followed by `stale`, the bytes that were in memory after
them (`buf` is not initialised and the source writes no terminator). -/
def bufAfterRead (feed stale : List Char) : List Char := feed.take 219 ++ stale

/-- Lines 220-232: the read of the aggregate line of a feed. -/
def readAggregate (feed stale : List Char) : ReadResult :=
  parseCounters (cstr (bufAfterRead feed stale))

/-- Line 235: `work = user + nice + system + irq + softirq`. -/
def work (c : Counters) : Int := c.user + c.nice + c.system + c.irq + c.softirq

/-! ## Counting the CPUs (`count_cpus`, lines 382-405) -/

/-- The loop of `count_cpus` over the bytes still to read, with the locals `s` and
`count`; the `default` case returns -1. -/
def count_cpus_loop : List Char → Int → Int → Int
  | [], _, count => count
  | c :: cs, s, count =>
    if s = 0 then (if c = 'c' then count_cpus_loop cs (s + 1) count else count_cpus_loop cs 0 count)
    else if s = 1 then (if c = 'p' then count_cpus_loop cs (s + 1) count else count_cpus_loop cs 0 count)
    else if s = 2 then (if c = 'u' then count_cpus_loop cs (s + 1) count else count_cpus_loop cs 0 count)
    else if s = 3 then (if isdigit c then count_cpus_loop cs 0 (count + 1) else count_cpus_loop cs 0 count)
    else -1

/-- The function `count_cpus`: -1 when `lseek` fails, otherwise the count the loop
reaches at the end of the feed. -/
def count_cpus (seekFailed : Bool) (feed : List Char) : Int :=
  if seekFailed then -1 else count_cpus_loop feed 0 0

/-- The number of positions of a text at which `c`, `p`, `u` and a decimal digit
follow one another: the occurrences of "cpu" followed by a digit. -/
def cpuDigitOccurrences : List Char → Nat
  | [] => 0
  | c :: cs =>
    (match c, cs with
     | 'c', 'p' :: 'u' :: d :: _ => if isdigit d then 1 else 0
     | _, _ => 0) + cpuDigitOccurrences cs

/-! ## The glyph of a block level (lines 287-297) -/

/-- The three locals `cpu_char_a`, `cpu_char_b`, `cpu_char_c`. -/
structure Glyph where
  cpu_char_a : Int
  cpu_char_b : Int
  cpu_char_c : Int
deriving DecidableEq, Repr

/-- Lines 288-297: the glyph chosen for the block level `cpu_block`. -/
def glyph (cpu_block : Int) : Glyph :=
  let a : Int := 0xe2
  let b : Int := 0x96
  let c : Int := 0x20
  let a := if cpu_block ≤ 0 then 0x00 else a
  let b := if cpu_block ≤ 0 then 0x00 else b
  let c := if cpu_block ≤ 0 then 0x5f else c
  let c := if cpu_block > 0 then 0x80 + cpu_block else c
  let c := if cpu_block ≥ 9 then 0x93 else c
  ⟨a, b, c⟩

/-- The conversion of an `int` to the byte stored in a `char`. -/
def toByte (x : Int) : Nat := (x % 256).toNat

/-- The three bytes a glyph occupies in `graph`, in the order of the array. -/
def Glyph.bytes (g : Glyph) : List Nat :=
  [toByte g.cpu_char_a, toByte g.cpu_char_b, toByte g.cpu_char_c]

/-- Line 326: the width recorded in `graph_width`, the number of bytes that are not NUL. -/
def Glyph.width (g : Glyph) : Nat :=
  (if g.cpu_char_a ≠ 0 then 1 else 0) + (if g.cpu_char_b ≠ 0 then 1 else 0)
    + (if g.cpu_char_c ≠ 0 then 1 else 0)

/-- The UTF-8 encoding of a code point, as the bytes of the standard library encoder. -/
def utf8 (cp : Nat) : List Nat := (String.utf8EncodeChar (Char.ofNat cp)).map UInt8.toNat

/-! ## The scrolling graph (lines 110-120 and 321-325) -/

/-- Line 112: `ul = (usage_length < 1 ? 1 : usage_length)`. -/
def ul (usage_length : Nat) : Nat := if usage_length < 1 then 1 else usage_length

/-- The three bytes lines 117-118 write for each position: NUL, NUL, space. -/
def filler : List Nat := [0x00, 0x00, 0x20]

/-- Lines 113-120: the array `graph` of `3 * ul` bytes after the initialising loop. -/
def graphInit (usage_length : Nat) : List Nat :=
  (List.replicate (ul usage_length) filler).flatten

/-- The library function `memmove(buf + dst, buf + src, n)` within one array. -/
def memmove (buf : List Nat) (dst src n : Nat) : List Nat :=
  buf.take dst ++ (buf.drop src).take n ++ buf.drop (dst + n)

/-- Lines 322-325, "update the graph": the array moves down by three bytes and the
glyph is stored in the last three. -/
def graphPush (graph : List Nat) (g : Glyph) : List Nat :=
  let size := graph.length
  let graph := memmove graph 0 3 (size - 3)
  let graph := graph.set (size - 1) (toByte g.cpu_char_c)
  let graph := graph.set (size - 2) (toByte g.cpu_char_b)
  let graph := graph.set (size - 3) (toByte g.cpu_char_a)
  graph

/-! ## Divisions that may divide by zero -/

/-- The division `a / b` of C: no value when the divisor is 0. -/
def cdiv (a b : Int) : Option Int := if b = 0 then none else some (Int.tdiv a b)

/-- The remainder `a % b` of C on values that are not negative: no value when the
divisor is 0. -/
def cmod (a b : Int) : Option Int := if b = 0 then none else some (a % b)

/-- Lines 252-271 with every division checked: the outer `none` is a division by zero,
`some none` the `continue` of a skipped tick, `some (some u)` the percentage and the
block level. -/
def calculateChecked (clk_tck cpu_count : Int) (s : Samples) : Option (Option Usage) :=
  match cdiv (t_d_micro s) (clk_tck_u clk_tck) with
  | none => none
  | some q =>
    let full_ticks_d_micro := q * cpu_count
    if full_ticks_d_micro = 0 then some none
    else
      match cdiv (work_d s * 100) full_ticks_d_micro, cdiv (work_d s * 9) full_ticks_d_micro with
      | some cpu_perc, some cpu_block => some (some ⟨cpu_perc, cpu_block⟩)
      | _, _ => none

/-! ## What a tick shows and writes (lines 299-360) -/

/-- Line 299: `count = usage_length ? (count + 1) % usage_length : count + 1`, the
remainder checked. -/
def nextCount (usage_length : Nat) (count : Int) : Option Int :=
  if usage_length ≠ 0 then cmod (count + 1) (usage_length : Int) else some (count + 1)

/-- Lines 308-311: what `printf` adds to the display stream in the foreground, the three
bytes of the glyph and a line break when `usage_length && !count`. -/
def display (usage_length : Nat) (count : Int) (g : Glyph) : List Nat :=
  g.bytes ++ (if usage_length ≠ 0 ∧ count = 0 then [10] else [])

/-- Line 326: the width of the glyph is stored in the last element of `graph_width`. -/
def widthUpdate (graph_width : List Nat) (g : Glyph) : List Nat :=
  graph_width.set (graph_width.length - 1) g.width

/-- The text `printf` and `snprintf` produce for `%ld` and `%d`, as bytes. -/
def decimal (x : Int) : List Nat := (toString x).toList.map Char.toNat

/-- Line 342, `snprintf(spot, sizeof(spot), "%ld", cpu_perc)`: the memory from `spot` on
and the value returned.  At most 9 characters and a NUL are stored in the 10 bytes of
`spot`; `after` is the memory that follows the NUL; the value returned is the length
of the whole text. -/
def snprintf_spot (cpu_perc : Int) (after : List Nat) : List Nat × Nat :=
  ((decimal cpu_perc).take 9 ++ [0] ++ after, (decimal cpu_perc).length)

/-- The content of a file after `write(fd, data, n)` at offset 0 returned `ret`:
the bytes written replace those at the start of the file. -/
def fileWrite (file data : List Nat) (n : Nat) (ret : Int) : List Nat :=
  (data.take n).take ret.toNat ++ file.drop ((data.take n).take ret.toNat).length

/-- The content of a file after a successful `ftruncate(fd, n)`: cut, or extended
with NUL bytes, to `n` bytes. -/
def fileTruncate (file : List Nat) (n : Nat) : List Nat :=
  file.take n ++ List.replicate (n - file.length) 0

/-- Lines 342-356 when every call succeeds: the spot file after `snprintf`,
`ftruncate`, `lseek` and a `write` of `spot_len` bytes. -/
def spotUpdate (spot_file : List Nat) (cpu_perc : Int) (after : List Nat) : List Nat :=
  let (spot, spot_len) := snprintf_spot cpu_perc after
  fileWrite (fileTruncate spot_file spot_len) spot spot_len spot_len

/-! ## The loop (lines 192-370) -/

/-- What the loop reads but never changes: `usage_length`, `use_background`, `clk_tck`
and `cpu_count`. -/
structure Config where
  usage_length : Nat
  use_background : Bool
  clk_tck : Int
  cpu_count : Int
deriving DecidableEq, Repr

/-- What the system calls of one tick return: the time of `gettimeofday` (`none` when
it fails), whether each `lseek` and the `ftruncate` succeeds, the value each `write`
returns, the feed read from `/proc/stat` with the bytes left in `buf` after it, and
the memory after the text in `spot`. -/
structure TickEnv where
  time : Option Timeval
  statSeek : Bool
  feed : List Char
  stale : List Char
  graphSeek : Bool
  graphWrite : Int
  spotAfter : List Nat
  spotTruncate : Bool
  spotSeek : Bool
  spotWrite : Int
deriving DecidableEq, Repr

/-- The state the loop changes: the double buffer, `count`, `graph`, `graph_width`, the
content of the graph file `cpu_file` and of `spot_file`, and the display stream. -/
structure Loop where
  samples : Samples
  count : Int
  graph : List Nat
  graph_width : List Nat
  cpu_file : List Nat
  spot_file : List Nat
  stdout : List Nat
deriving DecidableEq, Repr

/-- How one pass through the loop body ends: `next` goes on to the next tick (the end
of the body or the `continue`), `leave ret` leaves the loop with the value `main` will
return (0 after a `break`, -2 after `goto fin`), `trap` is a division by zero. -/
inductive Step where
  | next (s : Loop)
  | leave (ret : Int) (s : Loop)
  | trap
deriving DecidableEq, Repr

/-- The state when the loop is entered: both slots zero, `count = 0`, the graph of
fillers with widths 1, both files cut to length 0 at start-up, and the display stream
as the lines before the loop left it. -/
def Loop.init (cfg : Config) (stdout : List Nat) : Loop :=
  { samples := Samples.init
    count := 0
    graph := graphInit cfg.usage_length
    graph_width := List.replicate (ul cfg.usage_length) 1
    cpu_file := []
    spot_file := []
    stdout := stdout }

/-- Lines 328-360, the output in the background: the graph file is written from offset
0, then the spot file is cut to `spot_len` and written from offset 0; every call that
fails ends the loop with a `break`. -/
def output (env : TickEnv) (s : Loop) (cpu_perc : Int) : Step :=
  if env.graphSeek = false then Step.leave 0 s
  else
    let s := { s with cpu_file := fileWrite s.cpu_file s.graph s.graph.length env.graphWrite }
    if env.graphWrite ≠ (s.graph.length : Int) then Step.leave 0 s
    else
      let (spot, spot_len) := snprintf_spot cpu_perc env.spotAfter
      if env.spotTruncate = false then Step.leave 0 s
      else
        let s := { s with spot_file := fileTruncate s.spot_file spot_len }
        if env.spotSeek = false then Step.leave 0 s
        else
          let s := { s with spot_file := fileWrite s.spot_file spot spot_len env.spotWrite }
          if env.spotWrite ≠ (spot_len : Int) then Step.leave 0 s
          else Step.next s

/-- Lines 287-360, the part of a tick that is not skipped: the glyph, `count`, the
display stream in the foreground, the graph, and the two files in the background. -/
def produce (cfg : Config) (env : TickEnv) (s : Loop) (u : Usage) : Step :=
  let g := glyph u.cpu_block
  match nextCount cfg.usage_length s.count with
  | none => Step.trap
  | some count =>
    let s := { s with count := count }
    let s := if cfg.use_background = false
      then { s with stdout := s.stdout ++ display cfg.usage_length count g }
      else s
    let s := { s with graph := graphPush s.graph g, graph_width := widthUpdate s.graph_width g }
    if cfg.use_background then output env s u.cpu_perc else Step.next s

/-- One pass through the body of `while(1)`, lines 194-370. -/
def tick (cfg : Config) (env : TickEnv) (s : Loop) : Step :=
  let s := { s with samples := flipBuffers s.samples }
  match env.time with
  | none => Step.leave (-2) s
  | some now =>
    let s := { s with samples := recordTime s.samples now }
    if env.statSeek = false then Step.leave 0 s
    else
      match readAggregate env.feed env.stale with
      | ReadResult.noSpace => Step.leave 0 s
      | ReadResult.parsingFailed => Step.leave 0 s
      | ReadResult.ok c =>
        let s := { s with samples := recordWork s.samples (work c) }
        match calculateChecked cfg.clk_tck cfg.cpu_count s.samples with
        | none => Step.trap
        | some none => Step.next s
        | some (some u) => produce cfg env s u

/-- The loop over the ticks of `envs`, as far as they go: the last step taken. -/
def run (cfg : Config) : List TickEnv → Loop → Step
  | [], s => Step.next s
  | env :: envs, s =>
    match tick cfg env s with
    | Step.next s => run cfg envs s
    | Step.leave ret s => Step.leave ret s
    | Step.trap => Step.trap

/-- The state of the loop once a tick has recorded the time and the work. -/
def sampled (s : Loop) (now : Timeval) (w : Int) : Loop :=
  { s with samples := sample s.samples now w }

/-! ## Start-up and exit status (lines 52-190 and 372-380) -/

/-- The largest `unsigned long`, for the 64-bit `long` of Linux. -/
def ULONG_MAX : Nat := 18446744073709551615

/-- The library function `strtoul(arg, &e, 10)` on a whole argument: the value and the
offset `e`, which is 0 when nothing is converted.  A value beyond `ULONG_MAX` is
replaced by `ULONG_MAX`, and a minus sign negates as unsigned arithmetic does. -/
def strtoul (arg : List Char) : Nat × Nat :=
  let ws := (arg.takeWhile isspace).length
  let s1 := arg.dropWhile isspace
  let neg := s1.head? = some '-'
  let sg := if s1.head? = some '-' ∨ s1.head? = some '+' then 1 else 0
  let ds := (s1.drop sg).takeWhile isdigit
  if ds.length = 0 then (0, 0)
  else
    let v := ds.foldl (fun acc c => acc * 10 + (c.toNat - 48)) 0
    let v := if v > ULONG_MAX then ULONG_MAX else if neg then (ULONG_MAX + 1 - v) % (ULONG_MAX + 1)
      else v
    (v, ws + sg + ds.length)

/-- The conversion of an `unsigned long` to `unsigned int`. -/
def toUInt (v : Nat) : Nat := v % 4294967296

/-- How the call of `daemonise` goes for the process followed: `fork` fails, the process
is the parent, or it is the child and `setsid` succeeds or not. -/
inductive Fork where
  | failed
  | parent
  | child (setsidOk : Bool)
deriving DecidableEq, Repr

/-- What the start-up of `main` meets: the clock tick rate of `sysconf`, the arguments
after the program name, the value of `HOME`, whether each `open` and `ftruncate`
succeeds, whether the `lseek` of `count_cpus` fails and the text it reads, and how
`fork` goes. -/
structure StartEnv where
  clk_tck : Int
  argv : List (List Char)
  home : List Char
  statOpen : Bool
  cpuOpen : Bool
  cpuTruncate : Bool
  spotOpen : Bool
  spotTruncate : Bool
  countSeekFailed : Bool
  statText : List Char
  fork : Fork
deriving DecidableEq, Repr

/-- How the process followed ends: it exits with a status, it divides by zero, or the
loop is still running after the ticks given. -/
inductive Outcome where
  | exit (status : Int)
  | trap
  | running (s : Loop)
deriving DecidableEq, Repr

/-- The macro `MAX_PATH`. -/
def MAX_PATH : Nat := 4096

/-- Lines 88-96: the flags, `f` for the foreground, `c` and `t` for the two
diagnostics; the result is `use_background`, `show_cpu_count`, `show_clock_tck`. -/
def flags : List (List Char) → Bool × Bool × Bool → Bool × Bool × Bool
  | [], r => r
  | arg :: rest, (bg, sc, st) =>
    match arg.head? with
    | some 'f' => flags rest (false, sc, st)
    | some 'c' => flags rest (bg, true, st)
    | some 't' => flags rest (bg, sc, true)
    | _ => flags rest (bg, sc, st)

/-- Lines 187-188: the diagnostics printed before the loop. -/
def diagnostics (show_cpu_count show_clock_tck : Bool) (cpu_count clk_tck : Int) : List Nat :=
  (if show_cpu_count then "cpu_count=".toList.map Char.toNat ++ decimal cpu_count ++ [10] else [])
    ++ (if show_clock_tck then "clk_tck=".toList.map Char.toNat ++ decimal clk_tck ++ [10] else [])

/-- Lines 68-174, the start-up after the tick unit is computed: the exit status -1 of a
`return -1`, or the configuration of the loop and the diagnostics of lines 187-188
on the display stream. -/
def startUp (st : StartEnv) : Except Int (Config × List Nat) :=
  -- lines 75-78: the pause
  if 0 < st.argv.length ∧ (strtoul (st.argv.getD 0 [])).2 ≤ 0 then Except.error (-1)
  -- lines 83-86: the graph length
  else if 1 < st.argv.length ∧ (strtoul (st.argv.getD 1 [])).2 ≤ 0 then Except.error (-1)
  -- lines 127-165: the three files
  else if st.statOpen = false then Except.error (-1)
  else if (st.home ++ "/.cpu-usage".toList).length ≥ MAX_PATH then Except.error (-1)
  else if st.cpuOpen = false then Except.error (-1)
  else if st.cpuTruncate = false then Except.error (-1)
  else if (st.home ++ "/.cpu-usage.spot".toList).length ≥ MAX_PATH then Except.error (-1)
  else if st.spotOpen = false then Except.error (-1)
  else if st.spotTruncate = false then Except.error (-1)
  -- lines 167-174: the number of CPUs
  else if count_cpus st.countSeekFailed st.statText ≤ 0 then Except.error (-1)
  else
    let usage_length := if 1 < st.argv.length then toUInt (strtoul (st.argv.getD 1 [])).1 else 20
    let fl := flags (st.argv.drop 2) (true, false, false)
    let cpu_count := count_cpus st.countSeekFailed st.statText
    Except.ok (⟨usage_length, fl.1, st.clk_tck, cpu_count⟩,
      diagnostics fl.2.1 fl.2.2 cpu_count st.clk_tck)

/-- Lines 192-380: the loop over the ticks given, then `ret = 0` after a `break` or the
value set before `goto fin`, returned by `main`. -/
def loopAndReturn (cfg : Config) (envs : List TickEnv) (stdout : List Nat) : Outcome :=
  match run cfg envs (Loop.init cfg stdout) with
  | Step.next s => Outcome.running s
  | Step.leave ret _ => Outcome.exit ret
  | Step.trap => Outcome.trap

/-- The function `main`: the tick unit of line 65, the start-up, `daemonise` in the
background, the loop and the return. -/
def main (st : StartEnv) (envs : List TickEnv) : Outcome :=
  match cdiv U_PER_S st.clk_tck with
  | none => Outcome.trap
  | some _ =>
    match startUp st with
    | Except.error status => Outcome.exit status
    | Except.ok (cfg, stdout) =>
      if cfg.use_background then
        match st.fork with
        | Fork.failed => Outcome.exit 1
        | Fork.parent => Outcome.exit 0
        | Fork.child false => Outcome.exit 1
        | Fork.child true => loopAndReturn cfg envs stdout
      else loopAndReturn cfg envs stdout

/-! ## Feeds described: the shapes the properties below speak of -/

/-- The value of a string of decimal digits, most significant first. -/
def decimalValue (ds : List Char) : Int :=
  ((Nat.ofDigits 10 (ds.reverse.map (fun c => c.toNat - 48)) : Nat) : Int)

/-- The text `tok` writes the integer `v` in decimal: an optional sign and one or more
digits. -/
def IsDecimal (tok : List Char) (v : Int) : Prop :=
  ∃ ds : List Char, ds ≠ [] ∧ (∀ c ∈ ds, isdigit c = true) ∧
    ((tok = ds ∧ v = decimalValue ds) ∨ (tok = '+' :: ds ∧ v = decimalValue ds) ∨
      (tok = '-' :: ds ∧ v = -decimalValue ds))

/-- A run of white space, possibly empty. -/
def IsWhite (w : List Char) : Prop := ∀ c ∈ w, isspace c = true

instance (w : List Char) : Decidable (IsWhite w) := by
  unfold IsWhite
  infer_instance

/-- A separator: a run of white space that is not empty. -/
def IsSep (w : List Char) : Prop := w ≠ [] ∧ IsWhite w

instance (w : List Char) : Decidable (IsSep w) := by
  unfold IsSep
  infer_instance

/-- The integer `v` is a value of the type `long`. -/
def InLong (v : Int) : Prop := LONG_MIN ≤ v ∧ v ≤ LONG_MAX

instance (v : Int) : Decidable (InLong v) := by
  unfold InLong
  infer_instance

/-- The text `line` is an aggregate line for the counters `c`: the header "cpu " and
seven decimal integers of the range of `long`, separated by white space, in the order
user, nice, system, idle, iowait, irq, softirq. -/
def IsAggregateLine (line : List Char) (c : Counters) : Prop :=
  ∃ w0 t1 w1 t2 w2 t3 w3 t4 w4 t5 w5 t6 w6 t7 : List Char,
    line = "cpu ".toList ++ (w0 ++ (t1 ++ (w1 ++ (t2 ++ (w2 ++ (t3 ++ (w3 ++ (t4 ++ (w4 ++
      (t5 ++ (w5 ++ (t6 ++ (w6 ++ t7))))))))))))) ∧
    IsWhite w0 ∧ IsSep w1 ∧ IsSep w2 ∧ IsSep w3 ∧ IsSep w4 ∧ IsSep w5 ∧ IsSep w6 ∧
    (IsDecimal t1 c.user ∧ InLong c.user) ∧ (IsDecimal t2 c.nice ∧ InLong c.nice) ∧
    (IsDecimal t3 c.system ∧ InLong c.system) ∧ (IsDecimal t4 c.idle ∧ InLong c.idle) ∧
    (IsDecimal t5 c.iowait ∧ InLong c.iowait) ∧ (IsDecimal t6 c.irq ∧ InLong c.irq) ∧
    (IsDecimal t7 c.softirq ∧ InLong c.softirq)

/-- The text after a line does not go on with a digit: it is empty or starts with
another character. -/
def NoDigitAhead (rest : List Char) : Prop := ∀ c ∈ rest.head?, isdigit c = false

instance (rest : List Char) : Decidable (NoDigitAhead rest) := by
  unfold NoDigitAhead
  infer_instance

/-- A per-core line: the header "cpu", the digit `d` and the rest `r` of the line. -/
def coreLine (d : Char) (r : List Char) : List Char := 'c' :: 'p' :: 'u' :: d :: r

/-- A counter feed: the aggregate header "cpu ", the rest `r0` of that line, and the
per-core lines of `cores` one after the other. -/
def counterFeed (r0 : List Char) (cores : List (Char × List Char)) : List Char :=
  "cpu ".toList ++ r0 ++ (cores.map (fun x => coreLine x.1 x.2)).flatten

/-- An aggregate line whose white space after the header exceeds the 219 bytes read. -/
def longLine : List Char :=
  "cpu".toList ++ List.replicate 230 ' ' ++ "100 10 50 800 5 2 3".toList

/-! ## Runs described -/

/-- The glyph a tick produces from a state, if the tick goes on and is not skipped. -/
def glyphProduced (cfg : Config) (env : TickEnv) (s : Loop) : Option Glyph :=
  match tick cfg env s with
  | Step.next s' =>
    match calculateChecked cfg.clk_tck cfg.cpu_count s'.samples with
    | some (some u) => some (glyph u.cpu_block)
    | _ => none
  | _ => none

/-- The glyphs the ticks of a run produce, in order, as long as the loop goes on. -/
def glyphsProduced (cfg : Config) : List TickEnv → Loop → List Glyph
  | [], _ => []
  | env :: envs, s =>
    match tick cfg env s with
    | Step.next s' => (glyphProduced cfg env s).toList ++ glyphsProduced cfg envs s'
    | _ => []

/-- The display of a sequence of glyphs in lines of `L` glyphs when `k` glyphs were
shown before: after each glyph a line break if and only if the number of glyphs shown
so far is a multiple of `L`. -/
def shownInLines (L : Nat) : Nat → List Glyph → List Nat
  | _, [] => []
  | k, g :: gs => g.bytes ++ (if L ∣ k + 1 then [10] else []) ++ shownInLines L (k + 1) gs

/-- The code points whose glyphs the graph holds: space, underscore, the eight lower
blocks U+2581..U+2588 and U+2593. -/
def alphabetPoints : List Nat :=
  [0x20, 0x5f, 0x2581, 0x2582, 0x2583, 0x2584, 0x2585, 0x2586, 0x2587, 0x2588, 0x2593]

/-- The three-byte slot of a code point of the alphabet: its UTF-8 encoding, with two
NUL bytes in front when it is a single byte. -/
def slotOf (cp : Nat) : List Nat := List.replicate (3 - (utf8 cp).length) 0 ++ utf8 cp

/-- The slots the graph may hold: 00 00 20, 00 00 5f, e2 96 81 .. e2 96 88, e2 96 93. -/
def alphabet : List (List Nat) := alphabetPoints.map slotOf

/-! ## Example inputs -/

/-- The double buffer after two ticks: the second wrote the work 1000 at second 1000
into slot a. -/
def exampleBefore : Samples :=
  sample (sample Samples.init ⟨999, 0⟩ 900) ⟨1000, 0⟩ 1000

/-- The double buffer of `exampleBefore` after a third tick, one second later, that
read the work `w` (written into slot b). -/
def exampleSamples (w : Int) : Samples :=
  sample exampleBefore ⟨1001, 0⟩ w

/-- A configuration: a graph of 3 glyphs, 100 clock ticks per second, 4 CPUs, in the
background or in the foreground. -/
def exampleConfig (use_background : Bool) : Config := ⟨3, use_background, 100, 4⟩

/-- A tick at the second `sec` that reads `feed`, on which every call succeeds and the
writes return 9 and `spot_len`. -/
def exampleTick (sec : Int) (feed : List Char) (spot_len : Int) : TickEnv :=
  { time := some ⟨sec, 0⟩, statSeek := true, feed := feed, stale := [], graphSeek := true,
    graphWrite := 9, spotAfter := [], spotTruncate := true, spotSeek := true,
    spotWrite := spot_len }

/-- A first tick: the work read is 165. -/
def firstTick : TickEnv := exampleTick 1700000000 "cpu 100 10 50 800 5 2 3\n".toList 1

/-- A second tick, one second later: the work read is 365. -/
def secondTick : TickEnv := exampleTick 1700000001 "cpu 300 10 50 800 5 2 3\n".toList 2

/-- A third tick at the time of the second: the full capacity is 0. -/
def sameTimeTick : TickEnv := exampleTick 1700000001 "cpu 900 10 50 800 5 2 3\n".toList 2

/-- The state a step ends in, `s` for a division by zero. -/
def Step.state (st : Step) (s : Loop) : Loop :=
  match st with
  | Step.next s' => s'
  | Step.leave _ s' => s'
  | Step.trap => s

/-- The state after `firstTick` from the start. -/
def afterFirst (use_background : Bool) : Loop :=
  (tick (exampleConfig use_background) firstTick (Loop.init (exampleConfig use_background) [])).state
    (Loop.init (exampleConfig use_background) [])

/-- The state after `firstTick` and `secondTick` from the start. -/
def afterSecond (use_background : Bool) : Loop :=
  (tick (exampleConfig use_background) secondTick (afterFirst use_background)).state
    (afterFirst use_background)

/-- A configuration with one CPU: a graph of 3 glyphs in the background, 100 clock ticks
per second. -/
def oneCpuConfig : Config := ⟨3, true, 100, 1⟩

/-- A first tick that reads the work 0. -/
def idleTick : TickEnv := exampleTick 1000 "cpu 0 0 0 0 0 0 0\n".toList 1

/-- A second tick, one second later, that reads the work 1,000,000,000; every call
succeeds and the write of the spot file returns 10. -/
def burstTick : TickEnv := exampleTick 1001 "cpu 1000000000 0 0 0 0 0 0\n".toList 10

/-- The state after `idleTick` and `burstTick` from the start with one CPU. -/
def afterBurst : Loop :=
  (run oneCpuConfig [idleTick, burstTick] (Loop.init oneCpuConfig [])).state
    (Loop.init oneCpuConfig [])

/-- A start-up on which every call succeeds, with two CPUs in `/proc/stat` and the
process followed being the child of `fork`. -/
def exampleStart (argv : List (List Char)) : StartEnv :=
  { clk_tck := 100, argv := argv, home := "/home/user".toList, statOpen := true,
    cpuOpen := true, cpuTruncate := true, spotOpen := true, spotTruncate := true,
    countSeekFailed := false,
    statText := "cpu 1 2 3 4 5 6 7\ncpu0 1 2 3\ncpu1 1 2 3\n".toList,
    fork := Fork.child true }

/-- The arguments "1050 3": a pause of 1050 ms and a graph of 3 glyphs. -/
def exampleArgs : List (List Char) := ["1050".toList, "3".toList]

/-- Four ticks one second apart, none skipped. -/
def fourTicks : List TickEnv :=
  [firstTick, secondTick, exampleTick 1700000002 "cpu 700 10 50 800 5 2 3\n".toList 3,
    exampleTick 1700000003 "cpu 900 10 50 800 5 2 3\n".toList 2]

/-- The state after `fourTicks` from the start in the foreground. -/
def afterFour : Loop :=
  (run (exampleConfig false) fourTicks (Loop.init (exampleConfig false) [])).state
    (Loop.init (exampleConfig false) [])

/-! # Properties -/

set_option maxRecDepth 8192

/-! ## The calculator -/

/-- In the orientation slot a minus slot b the full capacity is that of current minus
previous, with the opposite sign when slot b was written. -/
theorem full_ticks_d_micro_eq (clk_tck cpu_count : Int) (s : Samples) :
    full_ticks_d_micro clk_tck cpu_count s =
      (match s.t_p with
       | Slot.a => fullCapacity clk_tck cpu_count (current s) (previous s)
       | Slot.b => -fullCapacity clk_tck cpu_count (current s) (previous s)) := by
  cases h : s.t_p
  · simp [full_ticks_d_micro, fullCapacity, current, previous, t_d_micro, h]
  · simp only [full_ticks_d_micro, fullCapacity, current, previous, t_d_micro, h]
    rw [← neg_mul, ← Int.neg_tdiv, neg_sub]

/-- The two signs cancel: the code computes what the specification writes. -/
theorem calculate_eq_specCalc (clk_tck cpu_count : Int) (s : Samples) :
    calculate clk_tck cpu_count s = specCalc clk_tck cpu_count (current s) (previous s) := by
  have hf := full_ticks_d_micro_eq clk_tck cpu_count s
  cases h : s.t_p
  · rw [h] at hf
    simp only [calculate, specCalc, hf, work_d]
    simp [current, previous, h]
  · rw [h] at hf
    simp only [calculate, specCalc, hf, work_d, neg_eq_zero]
    have hw : s.work_a - s.work_b = -((current s).work - (previous s).work) := by
      simp [current, previous, h]
    rw [hw]
    simp only [neg_mul, Int.neg_tdiv, Int.tdiv_neg, neg_neg]

/-- After the sampling part of a tick the pointers designate the slot just written. -/
theorem current_sample (s : Samples) (now : Timeval) (w : Int) :
    current (sample s now w) = ⟨now, w⟩ := by
  cases h : s.t_p <;> simp [sample, flipBuffers, recordTime, recordWork, current, h]

/-- The other slot still holds what the pointer designated before the tick. -/
theorem previous_sample (s : Samples) (now : Timeval) (w : Int) :
    previous (sample s now w) = current s := by
  cases h : s.t_p <;> simp [sample, flipBuffers, recordTime, recordWork, current, previous, h]

/-- C1. On every tick, whichever slot `t_p` designated before it, the sample written is
the current one, the other slot holds the previous one, and the code (which subtracts
slot b from slot a) skips the tick exactly when the full capacity
`((current.timestamp - previous.timestamp) / microsPerTick) * cpuCount` is 0 and
otherwise yields the percentage `((current.work - previous.work) * 100) / fullCapacity`
and the block level `((current.work - previous.work) * 9) / fullCapacity`, all
divisions truncating. -/
theorem calculate_sample (clk_tck cpu_count : Int) (s : Samples) (now : Timeval) (w : Int) :
    current (sample s now w) = ⟨now, w⟩ ∧
    previous (sample s now w) = current s ∧
    calculate clk_tck cpu_count (sample s now w) =
      (if Int.tdiv (micro now - micro (current s).timestamp) (Int.tdiv 1000000 clk_tck) * cpu_count = 0
       then none
       else some
        { cpu_perc := Int.tdiv ((w - (current s).work) * 100)
            (Int.tdiv (micro now - micro (current s).timestamp) (Int.tdiv 1000000 clk_tck) * cpu_count)
          cpu_block := Int.tdiv ((w - (current s).work) * 9)
            (Int.tdiv (micro now - micro (current s).timestamp) (Int.tdiv 1000000 clk_tck) * cpu_count) }) := by
  refine ⟨current_sample s now w, previous_sample s now w, ?_⟩
  rw [calculate_eq_specCalc, current_sample, previous_sample]
  rfl

/-- C2, as stated, fails: at work 1000 then 1165, one second apart, 4 CPUs and 100 ticks
per second, the full capacity is not 40 and the percentage is not 412; at a work
delta of 16 the percentage is not 40. -/
theorem example_not_412 :
    (current (exampleSamples 1165)).work = 1165 ∧
    (previous (exampleSamples 1165)).work = 1000 ∧
    micro (current (exampleSamples 1165)).timestamp
      - micro (previous (exampleSamples 1165)).timestamp = 1000000 ∧
    clk_tck_u 100 = 10000 ∧
    fullCapacity 100 4 (current (exampleSamples 1165)) (previous (exampleSamples 1165)) ≠ 40 ∧
    (calculate 100 4 (exampleSamples 1165)).map Usage.cpu_perc ≠ some 412 ∧
    (calculate 100 4 (exampleSamples 1016)).map Usage.cpu_perc ≠ some 40 := by
  decide

/-- C2, amended. For previous.work = 1000 and timestamps exactly 1,000,000 microseconds
apart, 4 CPUs and 100 ticks per second (10,000 microseconds per tick), the full
capacity is 400; current.work = 1165 gives the percentage 41 and current.work = 1016
(a work delta of 16) gives the percentage 4. -/
theorem example_400_41_4 (s : Samples) (now : Timeval)
    (hw : (current s).work = 1000)
    (ht : micro now - micro (current s).timestamp = 1000000) :
    clk_tck_u 100 = 10000 ∧
    fullCapacity 100 4 ⟨now, 1165⟩ (current s) = 400 ∧
    (calculate 100 4 (sample s now 1165)).map Usage.cpu_perc = some 41 ∧
    (calculate 100 4 (sample s now 1016)).map Usage.cpu_perc = some 4 := by
  have h1 : calculate 100 4 (sample s now 1165) = specCalc 100 4 ⟨now, 1165⟩ (current s) := by
    rw [calculate_eq_specCalc, current_sample, previous_sample]
  have h2 : calculate 100 4 (sample s now 1016) = specCalc 100 4 ⟨now, 1016⟩ (current s) := by
    rw [calculate_eq_specCalc, current_sample, previous_sample]
  rw [h1, h2]
  simp only [specCalc, fullCapacity, ht, hw]
  decide

/-- The amended C2 at the double buffer `exampleBefore` and the time of second 1001. -/
theorem example_400_41_4_witness :
    (current exampleBefore).work = 1000 ∧
    micro ⟨1001, 0⟩ - micro (current exampleBefore).timestamp = 1000000 ∧
    clk_tck_u 100 = 10000 ∧
    fullCapacity 100 4 ⟨⟨1001, 0⟩, 1165⟩ (current exampleBefore) = 400 ∧
    (calculate 100 4 (sample exampleBefore ⟨1001, 0⟩ 1165)).map Usage.cpu_perc = some 41 ∧
    (calculate 100 4 (sample exampleBefore ⟨1001, 0⟩ 1016)).map Usage.cpu_perc = some 4 :=
  ⟨by decide, by decide, example_400_41_4 exampleBefore ⟨1001, 0⟩ (by decide) (by decide)⟩

/-! ## Reading the aggregate line -/

/-- The function `takeWhile` stops where the first list ends when the second does not go on. -/
theorem takeWhile_append_stop {p : Char → Bool} (xs ys : List Char)
    (hx : ∀ a ∈ xs, p a = true) (hy : ∀ y ∈ ys.head?, p y = false) :
    (xs ++ ys).takeWhile p = xs := by
  induction xs with
  | nil =>
    cases ys with
    | nil => rfl
    | cons y t =>
      have : p y = false := hy y (by simp)
      simp [List.takeWhile_cons, this]
  | cons x t ih =>
    have hxp : p x = true := hx x (List.mem_cons_self x t)
    simp only [List.cons_append, List.takeWhile_cons, hxp, if_true]
    rw [ih (fun a ha => hx a (List.mem_cons_of_mem x ha))]

/-- The function `dropWhile` leaves the second list when the first is dropped whole. -/
theorem dropWhile_append_stop {p : Char → Bool} (xs ys : List Char)
    (hx : ∀ a ∈ xs, p a = true) (hy : ∀ y ∈ ys.head?, p y = false) :
    (xs ++ ys).dropWhile p = ys := by
  induction xs with
  | nil =>
    cases ys with
    | nil => rfl
    | cons y t =>
      have : p y = false := hy y (by simp)
      simp [List.dropWhile_cons, this]
  | cons x t ih =>
    have hxp : p x = true := hx x (List.mem_cons_self x t)
    simp only [List.cons_append, List.dropWhile_cons, hxp, if_true]
    rw [ih (fun a ha => hx a (List.mem_cons_of_mem x ha))]

/-- The value of a digit character as a natural number. -/
theorem digitVal_of_isdigit (c : Char) (h : isdigit c = true) :
    digitVal c = ((c.toNat - 48 : Nat) : Int) := by
  have h48 : 48 ≤ c.toNat := by
    simp only [isdigit, Bool.and_eq_true, decide_eq_true_eq] at h
    exact h.1
  unfold digitVal
  omega

/-- The accumulation of `strtol` over a string of digits. -/
theorem foldl_digits (ds : List Char) (hd : ∀ c ∈ ds, isdigit c = true) (acc : Int) :
    ds.foldl (fun a c => a * 10 + digitVal c) acc = acc * 10 ^ ds.length + decimalValue ds := by
  induction ds generalizing acc with
  | nil => simp [decimalValue]
  | cons c t ih =>
    have hc := digitVal_of_isdigit c (hd c (List.mem_cons_self c t))
    rw [List.foldl_cons, ih (fun a ha => hd a (List.mem_cons_of_mem c ha))]
    simp only [decimalValue, List.reverse_cons, List.map_append, List.map_cons, List.map_nil,
      Nat.ofDigits_append, Nat.ofDigits_singleton, List.length_map, List.length_reverse,
      List.length_cons, hc]
    push_cast
    ring

/-- A digit is not white space. -/
theorem isspace_of_isdigit (c : Char) (h : isdigit c = true) : isspace c = false := by
  simp only [isdigit, Bool.and_eq_true, decide_eq_true_eq] at h
  have h1 : 48 ≤ c.toNat := h.1
  have hne : ∀ d : Char, d.toNat < 48 → (c == d) = false := by
    intro d hd
    rw [beq_eq_false_iff_ne]
    intro hcd
    rw [hcd] at h1
    omega
  simp only [isspace, Bool.or_eq_false_iff, decide_eq_false_iff_not]
  have hn : ∀ d : Char, d.toNat < 48 → c ≠ d := by
    intro d hd hcd
    rw [hcd] at h1
    omega
  exact ⟨⟨⟨⟨⟨hn _ (by decide), hn _ (by decide)⟩, hn _ (by decide)⟩, hn _ (by decide)⟩,
    hn _ (by decide)⟩, hn _ (by decide)⟩

/-- A digit is not a sign. -/
theorem not_sign_of_isdigit (c : Char) (h : isdigit c = true) : c ≠ '-' ∧ c ≠ '+' := by
  simp only [isdigit, Bool.and_eq_true, decide_eq_true_eq] at h
  have h1 : 48 ≤ c.toNat := h.1
  constructor <;> intro hc <;> rw [hc] at h1 <;> revert h1 <;> decide

/-- The call of `strtol` at an offset where white space, a decimal integer of the range
of `long` and no further digit follow: the value is that integer and `e` is just
after it. -/
theorem strtol_field (buf : List Char) (n : Nat) (w tok rest : List Char) (v : Int)
    (hd : buf.drop n = w ++ (tok ++ rest)) (hw : IsWhite w) (ht : IsDecimal tok v)
    (hv : InLong v) (hr : NoDigitAhead rest) :
    strtol buf n = (v, n + w.length + tok.length) := by
  obtain ⟨ds, hne, hds, hform⟩ := ht
  obtain ⟨d, t, rfl⟩ := List.exists_cons_of_ne_nil hne
  have hdd : isdigit d = true := hds d (List.mem_cons_self d t)
  have htake : ((d :: t) ++ rest).takeWhile isdigit = d :: t := takeWhile_append_stop _ _ hds hr
  have hval := foldl_digits (d :: t) hds 0
  rw [zero_mul, zero_add] at hval
  obtain ⟨hmin, hmax⟩ := hv
  rcases hform with ⟨rfl, rfl⟩ | ⟨rfl, rfl⟩ | ⟨rfl, rfl⟩
  · have hhead : ∀ y ∈ ((d :: t) ++ rest).head?, isspace y = false := by
      intro y hy
      simp only [List.cons_append, List.head?_cons, Option.mem_def, Option.some.injEq] at hy
      rw [← hy]; exact isspace_of_isdigit d hdd
    have h1 := takeWhile_append_stop w _ hw hhead
    have h2 := dropWhile_append_stop w _ hw hhead
    have hs := not_sign_of_isdigit d hdd
    unfold strtol
    simp only [hd, h1, h2]
    simp only [List.cons_append, List.head?_cons, Option.some.injEq, hs.1, hs.2, or_self,
      if_false, List.drop_zero]
    rw [← List.cons_append, htake, hval]
    simp only [List.length_cons, Nat.add_one_ne_zero, if_false, add_zero]
    rw [min_eq_left hmax]
  · have hhead : ∀ y ∈ (('+' :: d :: t) ++ rest).head?, isspace y = false := by
      intro y hy
      simp only [List.cons_append, List.head?_cons, Option.mem_def, Option.some.injEq] at hy
      rw [← hy]; decide
    have h1 := takeWhile_append_stop w _ hw hhead
    have h2 := dropWhile_append_stop w _ hw hhead
    unfold strtol
    simp only [hd, h1, h2]
    simp only [List.cons_append, List.head?_cons, Option.some.injEq, or_true, if_true,
      List.drop_succ_cons, List.drop_zero]
    rw [← List.cons_append, htake, hval]
    simp only [List.length_cons, Nat.add_one_ne_zero, if_false]
    have hf : ¬ ('+' = '-') := by decide
    simp only [hf, if_false]
    rw [min_eq_left hmax]
    congr 1
    omega
  · have hhead : ∀ y ∈ (('-' :: d :: t) ++ rest).head?, isspace y = false := by
      intro y hy
      simp only [List.cons_append, List.head?_cons, Option.mem_def, Option.some.injEq] at hy
      rw [← hy]; decide
    have h1 := takeWhile_append_stop w _ hw hhead
    have h2 := dropWhile_append_stop w _ hw hhead
    unfold strtol
    simp only [hd, h1, h2]
    simp only [List.cons_append, List.head?_cons, true_or, if_true,
      List.drop_succ_cons, List.drop_zero]
    rw [← List.cons_append, htake, hval]
    simp only [List.length_cons, Nat.add_one_ne_zero, if_false]
    rw [max_eq_left hmin]
    congr 1
    omega

/-- White space is not a digit. -/
theorem isdigit_of_isspace (c : Char) (h : isspace c = true) : isdigit c = false := by
  cases hd : isdigit c with
  | false => rfl
  | true => rw [isspace_of_isdigit c hd] at h; exact absurd h (by decide)

/-- No digit follows where a separator starts. -/
theorem noDigitAhead_sep (w rest : List Char) (hw : IsSep w) : NoDigitAhead (w ++ rest) := by
  obtain ⟨hne, hall⟩ := hw
  obtain ⟨x, t, rfl⟩ := List.exists_cons_of_ne_nil hne
  intro y hy
  simp only [List.cons_append, List.head?_cons, Option.mem_def, Option.some.injEq] at hy
  rw [← hy]
  exact isdigit_of_isspace x (hall x (List.mem_cons_self x t))

/-- A decimal integer has at least one character. -/
theorem length_pos_of_isDecimal (tok : List Char) (v : Int) (h : IsDecimal tok v) :
    1 ≤ tok.length := by
  obtain ⟨ds, hne, -, hform⟩ := h
  rcases hform with ⟨rfl, -⟩ | ⟨rfl, -⟩ | ⟨rfl, -⟩
  · exact List.length_pos.mpr hne
  · simp
  · simp

/-- One call of `strtol` in the chain of seven: the value, the offset reached, the text
that is left there, and the progress made. -/
theorem strtol_step (buf : List Char) (n : Nat) (w tok rest : List Char) (v : Int)
    (hd : buf.drop n = w ++ (tok ++ rest)) (hw : IsWhite w) (ht : IsDecimal tok v ∧ InLong v)
    (hr : NoDigitAhead rest) :
    strtol buf n = (v, n + w.length + tok.length) ∧
    buf.drop (n + w.length + tok.length) = rest ∧ n < n + w.length + tok.length := by
  refine ⟨strtol_field buf n w tok rest v hd hw ht.1 ht.2 hr, ?_, ?_⟩
  · rw [Nat.add_assoc, ← List.drop_drop, hd, ← List.append_assoc, ← List.length_append,
      List.drop_left]
  · have := length_pos_of_isDecimal tok v ht.1
    omega

/-- The chain of lines 223-232 when every call of `strtol` moves `e` beyond `p`. -/
theorem parseCounters_of (buf : List Char) (p e1 e2 e3 e4 e5 e6 e7 : Nat) (c : Counters)
    (hp : strchr buf ' ' = some p)
    (s1 : strtol buf p = (c.user, e1)) (s2 : strtol buf e1 = (c.nice, e2))
    (s3 : strtol buf e2 = (c.system, e3)) (s4 : strtol buf e3 = (c.idle, e4))
    (s5 : strtol buf e4 = (c.iowait, e5)) (s6 : strtol buf e5 = (c.irq, e6))
    (s7 : strtol buf e6 = (c.softirq, e7))
    (l1 : p < e1) (l2 : p < e2) (l3 : p < e3) (l4 : p < e4) (l5 : p < e5) (l6 : p < e6)
    (l7 : p < e7) :
    parseCounters buf = ReadResult.ok c := by
  unfold parseCounters
  rw [hp]
  dsimp only
  rw [s1]
  dsimp only
  rw [if_neg (Nat.not_le.mpr l1), s2]
  dsimp only
  rw [if_neg (Nat.not_le.mpr l2), s3]
  dsimp only
  rw [if_neg (Nat.not_le.mpr l3), s4]
  dsimp only
  rw [if_neg (Nat.not_le.mpr l4), s5]
  dsimp only
  rw [if_neg (Nat.not_le.mpr l5), s6]
  dsimp only
  rw [if_neg (Nat.not_le.mpr l6), s7]
  dsimp only
  rw [if_neg (Nat.not_le.mpr l7)]

/-- The seven calls of `strtol` on an aggregate line read its seven counters. -/
theorem parseCounters_line (line rest : List Char) (c : Counters)
    (hl : IsAggregateLine line c) (hr : NoDigitAhead rest) :
    parseCounters (line ++ rest) = ReadResult.ok c := by
  obtain ⟨w0, t1, w1, t2, w2, t3, w3, t4, w4, t5, w5, t6, w6, t7, hline, hrest⟩ := hl
  obtain ⟨hw0, hw1, hw2, hw3, hw4, hw5, hw6, hdec⟩ := hrest
  obtain ⟨h1, h2, h3, h4, h5, h6, h7⟩ := hdec
  generalize hb : line ++ rest = buf
  rw [hline] at hb
  simp only [List.append_assoc] at hb
  have hp : strchr buf ' ' = some 3 := by
    rw [← hb]
    simp [strchr]
  have hd0 : buf.drop 3 = (' ' :: w0) ++ (t1 ++ (w1 ++ (t2 ++ (w2 ++ (t3 ++ (w3 ++ (t4 ++
      (w4 ++ (t5 ++ (w5 ++ (t6 ++ (w6 ++ (t7 ++ rest))))))))))))) := by
    rw [← hb]
    rfl
  have hw0' : IsWhite (' ' :: w0) := by
    intro x hx
    rcases List.mem_cons.mp hx with rfl | hx
    · rfl
    · exact hw0 x hx
  obtain ⟨s1, d1, l1⟩ := strtol_step buf 3 _ t1 _ c.user hd0 hw0' h1 (noDigitAhead_sep _ _ hw1)
  obtain ⟨s2, d2, l2⟩ := strtol_step buf _ w1 t2 _ c.nice d1 hw1.2 h2 (noDigitAhead_sep _ _ hw2)
  obtain ⟨s3, d3, l3⟩ := strtol_step buf _ w2 t3 _ c.system d2 hw2.2 h3 (noDigitAhead_sep _ _ hw3)
  obtain ⟨s4, d4, l4⟩ := strtol_step buf _ w3 t4 _ c.idle d3 hw3.2 h4 (noDigitAhead_sep _ _ hw4)
  obtain ⟨s5, d5, l5⟩ := strtol_step buf _ w4 t5 _ c.iowait d4 hw4.2 h5 (noDigitAhead_sep _ _ hw5)
  obtain ⟨s6, d6, l6⟩ := strtol_step buf _ w5 t6 _ c.irq d5 hw5.2 h6 (noDigitAhead_sep _ _ hw6)
  obtain ⟨s7, -, l7⟩ := strtol_step buf _ w6 t7 _ c.softirq d6 hw6.2 h7 hr
  exact parseCounters_of buf 3 _ _ _ _ _ _ _ c hp s1 s2 s3 s4 s5 s6 s7 (by omega) (by omega)
    (by omega) (by omega) (by omega) (by omega) (by omega)

/-- White space is not NUL. -/
theorem ne_nul_of_isspace (x : Char) (h : isspace x = true) : (x != Char.ofNat 0) = true := by
  rw [bne_iff_ne]
  rintro rfl
  exact absurd h (by decide)

/-- A digit is not NUL. -/
theorem ne_nul_of_isdigit (x : Char) (h : isdigit x = true) : (x != Char.ofNat 0) = true := by
  rw [bne_iff_ne]
  rintro rfl
  exact absurd h (by decide)

/-- A decimal integer holds no NUL. -/
theorem ne_nul_of_isDecimal (tok : List Char) (v : Int) (h : IsDecimal tok v) :
    ∀ x ∈ tok, (x != Char.ofNat 0) = true := by
  obtain ⟨ds, -, hds, hform⟩ := h
  intro x hx
  rcases hform with ⟨rfl, -⟩ | ⟨rfl, -⟩ | ⟨rfl, -⟩
  · exact ne_nul_of_isdigit x (hds x hx)
  · rcases List.mem_cons.mp hx with rfl | hx
    · decide
    · exact ne_nul_of_isdigit x (hds x hx)
  · rcases List.mem_cons.mp hx with rfl | hx
    · decide
    · exact ne_nul_of_isdigit x (hds x hx)

/-- An aggregate line holds no NUL. -/
theorem ne_nul_of_isAggregateLine (line : List Char) (c : Counters)
    (hl : IsAggregateLine line c) : ∀ x ∈ line, (x != Char.ofNat 0) = true := by
  obtain ⟨w0, t1, w1, t2, w2, t3, w3, t4, w4, t5, w5, t6, w6, t7, hline, hrest⟩ := hl
  obtain ⟨hw0, hw1, hw2, hw3, hw4, hw5, hw6, hdec⟩ := hrest
  obtain ⟨h1, h2, h3, h4, h5, h6, h7⟩ := hdec
  have hs : ∀ w : List Char, IsWhite w → ∀ x ∈ w, (x != Char.ofNat 0) = true :=
    fun w hw x hx => ne_nul_of_isspace x (hw x hx)
  have hhead : ∀ x ∈ "cpu ".toList, (x != Char.ofNat 0) = true := by decide
  intro x hx
  rw [hline] at hx
  simp only [List.mem_append] at hx
  rcases hx with h | h | h | h | h | h | h | h | h | h | h | h | h | h | h
  · exact hhead x h
  · exact hs w0 hw0 x h
  · exact ne_nul_of_isDecimal t1 _ h1.1 x h
  · exact hs w1 hw1.2 x h
  · exact ne_nul_of_isDecimal t2 _ h2.1 x h
  · exact hs w2 hw2.2 x h
  · exact ne_nul_of_isDecimal t3 _ h3.1 x h
  · exact hs w3 hw3.2 x h
  · exact ne_nul_of_isDecimal t4 _ h4.1 x h
  · exact hs w4 hw4.2 x h
  · exact ne_nul_of_isDecimal t5 _ h5.1 x h
  · exact hs w5 hw5.2 x h
  · exact ne_nul_of_isDecimal t6 _ h6.1 x h
  · exact hs w6 hw6.2 x h
  · exact ne_nul_of_isDecimal t7 _ h7.1 x h

/-- What a C string function sees after a line is still not a digit. -/
theorem noDigitAhead_cstr (rest : List Char) (hr : NoDigitAhead rest) :
    NoDigitAhead (cstr rest) := by
  cases rest with
  | nil => exact hr
  | cons y t =>
    intro z hz
    unfold cstr at hz
    rw [List.takeWhile_cons] at hz
    split at hz
    · simp only [List.head?_cons, Option.mem_def, Option.some.injEq] at hz
      rw [← hz]
      exact hr y (by simp)
    · simp at hz

/-- The read of a buffer that starts with an aggregate line not followed by a digit. -/
theorem readAggregate_of_line (feed stale line rest : List Char) (c : Counters)
    (hmem : bufAfterRead feed stale = line ++ rest)
    (hl : IsAggregateLine line c) (hr : NoDigitAhead rest) :
    readAggregate feed stale = ReadResult.ok c := by
  unfold readAggregate
  rw [hmem]
  have hc : cstr (line ++ rest) = line ++ cstr rest := by
    unfold cstr
    exact List.takeWhile_append_of_pos (ne_nul_of_isAggregateLine line c hl)
  rw [hc]
  exact parseCounters_line line (cstr rest) c hl (noDigitAhead_cstr rest hr)

/-- The call of `strtol` at an offset where white space and then a character that is
neither a sign nor a digit follow: no conversion, the value is 0 and `e` is `nptr`. -/
theorem strtol_none (buf : List Char) (n : Nat) (w : List Char) (x : Char) (t : List Char)
    (hd : buf.drop n = w ++ x :: t) (hw : IsWhite w) (hx : isspace x = false)
    (hm : x ≠ '-') (hp : x ≠ '+') (hg : isdigit x = false) :
    strtol buf n = (0, n) := by
  have hhead : ∀ y ∈ (x :: t).head?, isspace y = false := by
    intro y hy
    simp only [List.head?_cons, Option.mem_def, Option.some.injEq] at hy
    rw [← hy]; exact hx
  have h1 := takeWhile_append_stop w _ hw hhead
  have h2 := dropWhile_append_stop w _ hw hhead
  unfold strtol
  simp only [hd, h1, h2]
  simp only [List.head?_cons, Option.some.injEq, hm, hp, or_self, if_false, List.drop_zero,
    List.takeWhile_cons, hg, List.length_nil, if_true]
  simp

/-- A run of spaces is white space. -/
theorem isWhite_replicate (n : Nat) : IsWhite (List.replicate n ' ') := by
  intro c hc
  rw [(List.mem_replicate.mp hc).2]
  rfl

/-- A string of digits writes its value. -/
theorem isDecimal_digits (ds : List Char) (hne : ds ≠ []) (hds : ∀ c ∈ ds, isdigit c = true) :
    IsDecimal ds (decimalValue ds) :=
  ⟨ds, hne, hds, Or.inl ⟨rfl, rfl⟩⟩

/-- C3, as stated, fails.  In the feed `longLine` the header "cpu" is followed by seven
decimal integers separated by white space, yet the white space exceeds the 219 bytes
read: the read ends in a parse failure when no byte is left in the buffer after them,
and yields whatever integers are left there otherwise.  A first integer beyond the
range of `long` is read as `LONG_MAX`, and after a header followed by a tab the read
starts at the first space, behind the first integer. -/
theorem readAggregate_not_every_line :
    (IsAggregateLine longLine ⟨100, 10, 50, 800, 5, 2, 3⟩ ∧
      readAggregate (longLine ++ "\ncpu0 1 2 3\n".toList) [] = ReadResult.parsingFailed ∧
      readAggregate (longLine ++ "\ncpu0 1 2 3\n".toList) [] ≠
        ReadResult.ok ⟨100, 10, 50, 800, 5, 2, 3⟩ ∧
      readAggregate (longLine ++ "\ncpu0 1 2 3\n".toList) "9 8 7 6 5 4 3".toList =
        ReadResult.ok ⟨9, 8, 7, 6, 5, 4, 3⟩) ∧
    readAggregate "cpu 9223372036854775808 10 50 800 5 2 3\n".toList [] =
      ReadResult.ok ⟨9223372036854775807, 10, 50, 800, 5, 2, 3⟩ ∧
    readAggregate "cpu\t100 10 50 800 5 2 3\n".toList [] =
      ReadResult.ok ⟨10, 50, 800, 5, 2, 3, 0⟩ :=
  ⟨⟨⟨List.replicate 229 ' ', "100".toList, " ".toList, "10".toList, " ".toList, "50".toList,
    " ".toList, "800".toList, " ".toList, "5".toList, " ".toList, "2".toList, " ".toList,
    "3".toList, rfl, isWhite_replicate 229, by decide, by decide, by decide, by decide,
    by decide, by decide,
    ⟨isDecimal_digits "100".toList (by decide) (by decide), by decide⟩,
    ⟨isDecimal_digits "10".toList (by decide) (by decide), by decide⟩,
    ⟨isDecimal_digits "50".toList (by decide) (by decide), by decide⟩,
    ⟨isDecimal_digits "800".toList (by decide) (by decide), by decide⟩,
    ⟨isDecimal_digits "5".toList (by decide) (by decide), by decide⟩,
    ⟨isDecimal_digits "2".toList (by decide) (by decide), by decide⟩,
    ⟨isDecimal_digits "3".toList (by decide) (by decide), by decide⟩⟩,
   by decide, by decide, by decide⟩, by decide, by decide⟩

/-- C3, amended. Whenever the buffer after the read (the first 219 bytes of the feed and
the bytes left in memory after them) starts with an aggregate line, that is the header
"cpu " and seven decimal integers of the range of `long` separated by white space, and
no digit follows the line, the read yields those seven integers in the order user,
nice, system, idle, iowait, irq, softirq, and the work, also as recorded in the slot
written on the tick, is user + nice + system + irq + softirq, whatever idle and iowait
are. -/
theorem readAggregate_line (feed stale line rest : List Char) (c : Counters)
    (hmem : bufAfterRead feed stale = line ++ rest)
    (hl : IsAggregateLine line c) (hr : NoDigitAhead rest) :
    readAggregate feed stale = ReadResult.ok c ∧
    work c = c.user + c.nice + c.system + c.irq + c.softirq ∧
    (∀ (s : Samples) (now : Timeval), (current (sample s now (work c))).work =
      c.user + c.nice + c.system + c.irq + c.softirq) ∧
    ∀ idle iowait : Int, work { c with idle := idle, iowait := iowait } = work c :=
  ⟨readAggregate_of_line feed stale line rest c hmem hl hr, rfl,
    fun s now => by rw [current_sample]; rfl, fun _ _ => rfl⟩

/-- The amended C3 at the feed "cpu 100 10 50 800 5 2 3": the seven counters and the
work 165. -/
theorem readAggregate_line_witness :
    bufAfterRead "cpu 100 10 50 800 5 2 3".toList [] = "cpu 100 10 50 800 5 2 3".toList ++ [] ∧
    IsAggregateLine "cpu 100 10 50 800 5 2 3".toList ⟨100, 10, 50, 800, 5, 2, 3⟩ ∧
    NoDigitAhead [] ∧
    readAggregate "cpu 100 10 50 800 5 2 3".toList [] = ReadResult.ok ⟨100, 10, 50, 800, 5, 2, 3⟩ ∧
    work ⟨100, 10, 50, 800, 5, 2, 3⟩ = 165 :=
  have hl : IsAggregateLine "cpu 100 10 50 800 5 2 3".toList ⟨100, 10, 50, 800, 5, 2, 3⟩ :=
    ⟨[], "100".toList, " ".toList, "10".toList, " ".toList, "50".toList,
      " ".toList, "800".toList, " ".toList, "5".toList, " ".toList, "2".toList, " ".toList,
      "3".toList, rfl, by decide, by decide, by decide, by decide, by decide,
      by decide, by decide,
      ⟨isDecimal_digits "100".toList (by decide) (by decide), by decide⟩,
      ⟨isDecimal_digits "10".toList (by decide) (by decide), by decide⟩,
      ⟨isDecimal_digits "50".toList (by decide) (by decide), by decide⟩,
      ⟨isDecimal_digits "800".toList (by decide) (by decide), by decide⟩,
      ⟨isDecimal_digits "5".toList (by decide) (by decide), by decide⟩,
      ⟨isDecimal_digits "2".toList (by decide) (by decide), by decide⟩,
      ⟨isDecimal_digits "3".toList (by decide) (by decide), by decide⟩⟩
  ⟨by decide, hl, by decide,
    (readAggregate_line "cpu 100 10 50 800 5 2 3".toList [] "cpu 100 10 50 800 5 2 3".toList []
      ⟨100, 10, 50, 800, 5, 2, 3⟩ (by decide) hl (by decide)).1, by decide⟩

/-- The first test `e <= p` does catch a first call of `strtol` that converts nothing. -/
theorem parseCounters_first (buf : List Char) (p : Nat) (v : Int)
    (hp : strchr buf ' ' = some p) (s1 : strtol buf p = (v, p)) :
    parseCounters buf = ReadResult.parsingFailed := by
  unfold parseCounters
  rw [hp]
  dsimp only
  rw [s1]
  dsimp only
  rw [if_pos (Nat.le_refl p)]

/-- C4 at a failing input: on a feed that starts "cpu 1 2 3 abc" the read does not fail;
the four calls of `strtol` that convert nothing leave `e` where it was, beyond `p`, so
the tests `e <= p` pass and idle, iowait, irq and softirq are 0.  Only a first token
that is not a number, as in "cpu abc", ends in the parse failure. -/
theorem readAggregate_three_fields (stale : List Char) :
    readAggregate "cpu 1 2 3 abc\n".toList stale = ReadResult.ok ⟨1, 2, 3, 0, 0, 0, 0⟩ ∧
    readAggregate "cpu abc\n".toList stale = ReadResult.parsingFailed := by
  constructor
  · have hb : bufAfterRead "cpu 1 2 3 abc\n".toList stale = "cpu 1 2 3 abc\n".toList ++ stale :=
      rfl
    have hc : cstr ("cpu 1 2 3 abc\n".toList ++ stale) =
        "cpu 1 2 3 abc\n".toList ++ cstr stale := by
      unfold cstr
      exact List.takeWhile_append_of_pos (by decide)
    unfold readAggregate
    rw [hb, hc]
    generalize hbuf : "cpu 1 2 3 abc\n".toList ++ cstr stale = buf
    have hp : strchr buf ' ' = some 3 := by
      rw [← hbuf]
      simp [strchr]
    have s1 : strtol buf 3 = (1, 5) :=
      strtol_field buf 3 " ".toList "1".toList (" 2 3 abc\n".toList ++ cstr stale) 1
        (by rw [← hbuf]; rfl) (by decide)
        (isDecimal_digits "1".toList (by decide) (by decide)) (by decide)
        (by intro y hy; cases hy; decide)
    have s2 : strtol buf 5 = (2, 7) :=
      strtol_field buf 5 " ".toList "2".toList (" 3 abc\n".toList ++ cstr stale) 2
        (by rw [← hbuf]; rfl) (by decide)
        (isDecimal_digits "2".toList (by decide) (by decide)) (by decide)
        (by intro y hy; cases hy; decide)
    have s3 : strtol buf 7 = (3, 9) :=
      strtol_field buf 7 " ".toList "3".toList (" abc\n".toList ++ cstr stale) 3
        (by rw [← hbuf]; rfl) (by decide)
        (isDecimal_digits "3".toList (by decide) (by decide)) (by decide)
        (by intro y hy; cases hy; decide)
    have s4 : strtol buf 9 = (0, 9) :=
      strtol_none buf 9 " ".toList 'a' ("bc\n".toList ++ cstr stale)
        (by rw [← hbuf]; rfl) (by decide) (by decide) (by decide) (by decide) (by decide)
    exact parseCounters_of buf 3 5 7 9 9 9 9 9 ⟨1, 2, 3, 0, 0, 0, 0⟩ hp s1 s2 s3 s4 s4 s4 s4
      (by decide) (by decide) (by decide) (by decide) (by decide) (by decide) (by decide)
  · have hb : bufAfterRead "cpu abc\n".toList stale = "cpu abc\n".toList ++ stale := rfl
    have hc : cstr ("cpu abc\n".toList ++ stale) = "cpu abc\n".toList ++ cstr stale := by
      unfold cstr
      exact List.takeWhile_append_of_pos (by decide)
    unfold readAggregate
    rw [hb, hc]
    generalize hbuf : "cpu abc\n".toList ++ cstr stale = buf
    have hp : strchr buf ' ' = some 3 := by
      rw [← hbuf]
      simp [strchr]
    have s1 : strtol buf 3 = (0, 3) :=
      strtol_none buf 3 " ".toList 'a' ("bc\n".toList ++ cstr stale)
        (by rw [← hbuf]; rfl) (by decide) (by decide) (by decide) (by decide) (by decide)
    exact parseCounters_first buf 3 0 hp s1

/-! ## Counting the CPUs -/

/-- In state 0 the loop passes over text without the letter c and stays in state 0. -/
theorem count_cpus_loop_skip (r rest : List Char) (count : Int) (h : 'c' ∉ r) :
    count_cpus_loop (r ++ rest) 0 count = count_cpus_loop rest 0 count := by
  induction r with
  | nil => rfl
  | cons x t ih =>
    have hx : x ≠ 'c' := fun e => h (e ▸ List.mem_cons_self x t)
    have ht : 'c' ∉ t := fun e => h (List.mem_cons_of_mem x e)
    rw [List.cons_append, count_cpus_loop]
    simp only [if_true, if_neg hx]
    exact ih ht

/-- In state 0 the header of a per-core line adds one to the count. -/
theorem count_cpus_loop_core (d : Char) (rest : List Char) (count : Int)
    (hd : isdigit d = true) :
    count_cpus_loop ('c' :: 'p' :: 'u' :: d :: rest) 0 count =
      count_cpus_loop rest 0 (count + 1) := by
  simp [count_cpus_loop, hd]

/-- In state 0 the aggregate header "cpu " leaves the count as it is. -/
theorem count_cpus_loop_aggregate (rest : List Char) (count : Int) :
    count_cpus_loop ("cpu ".toList ++ rest) 0 count = count_cpus_loop rest 0 count := by
  have h : isdigit ' ' = false := by decide
  simp [count_cpus_loop, h]

/-- The loop over per-core lines one after the other counts them. -/
theorem count_cpus_loop_cores (cores : List (Char × List Char)) (count : Int)
    (hc : ∀ x ∈ cores, isdigit x.1 = true ∧ 'c' ∉ x.2) :
    count_cpus_loop (cores.map (fun x => coreLine x.1 x.2)).flatten 0 count =
      count + cores.length := by
  induction cores generalizing count with
  | nil => simp [count_cpus_loop]
  | cons x t ih =>
    obtain ⟨hd, hr⟩ := hc x (List.mem_cons_self x t)
    have ih1 := ih (count + 1) (fun y hy => hc y (List.mem_cons_of_mem x hy))
    rw [List.map_cons, List.flatten_cons]
    show count_cpus_loop ('c' :: 'p' :: 'u' :: x.1 :: (x.2 ++ _)) 0 count = _
    rw [count_cpus_loop_core x.1 _ count hd, count_cpus_loop_skip x.2 _ _ hr, ih1]
    simp only [List.length_cons]
    push_cast
    ring

/-- C5. For every feed made of the aggregate header "cpu ", the rest of that line, and
`n` per-core lines whose headers are "cpu" followed by a digit, the letter c occurring
nowhere else, `count_cpus` returns `n`; it returns 0 when there is no per-core line,
and 2 for "cpu 1 2 3 4 5 6 7\ncpu0 1 2 3\ncpu1 1 2 3". -/
theorem count_cpus_counterFeed (r0 : List Char) (cores : List (Char × List Char))
    (h0 : 'c' ∉ r0) (hc : ∀ x ∈ cores, isdigit x.1 = true ∧ 'c' ∉ x.2) :
    count_cpus false (counterFeed r0 cores) = cores.length ∧
    count_cpus false (counterFeed r0 []) = 0 ∧
    count_cpus false "cpu 1 2 3 4 5 6 7\ncpu0 1 2 3\ncpu1 1 2 3".toList = 2 := by
  have key : ∀ cs : List (Char × List Char), (∀ x ∈ cs, isdigit x.1 = true ∧ 'c' ∉ x.2) →
      count_cpus false (counterFeed r0 cs) = cs.length := by
    intro cs hcs
    unfold count_cpus counterFeed
    simp only [Bool.false_eq_true, if_false, List.append_assoc]
    rw [count_cpus_loop_aggregate, count_cpus_loop_skip r0 _ 0 h0, count_cpus_loop_cores cs 0 hcs]
    simp
  exact ⟨key cores hc, key [] (fun x hx => absurd hx (List.not_mem_nil x)), by decide⟩

/-- C5 at the feed "cpu 1 2 3 4 5 6 7\ncpu0 1 2 3\ncpu1 1 2 3", two per-core lines. -/
theorem count_cpus_counterFeed_witness :
    counterFeed "1 2 3 4 5 6 7\n".toList [('0', " 1 2 3\n".toList), ('1', " 1 2 3".toList)] =
      "cpu 1 2 3 4 5 6 7\ncpu0 1 2 3\ncpu1 1 2 3".toList ∧
    'c' ∉ "1 2 3 4 5 6 7\n".toList ∧
    (∀ x ∈ [('0', " 1 2 3\n".toList), ('1', " 1 2 3".toList)], isdigit x.1 = true ∧ 'c' ∉ x.2) ∧
    count_cpus false
      (counterFeed "1 2 3 4 5 6 7\n".toList [('0', " 1 2 3\n".toList), ('1', " 1 2 3".toList)]) =
      ([('0', " 1 2 3\n".toList), ('1', " 1 2 3".toList)] : List (Char × List Char)).length :=
  ⟨by decide, by decide, by decide,
    (count_cpus_counterFeed "1 2 3 4 5 6 7\n".toList
      [('0', " 1 2 3\n".toList), ('1', " 1 2 3".toList)] (by decide) (by decide)).1⟩

/-- C6 at a failing input: the text "ccpu0 1 2 3" holds one occurrence of "cpu" followed
by a digit, and `count_cpus` returns 0; after the first c the second c sends the
search back to state 0 without being looked at again. -/
theorem count_cpus_misses_occurrence :
    cpuDigitOccurrences "ccpu0 1 2 3\n".toList = 1 ∧
    count_cpus false "ccpu0 1 2 3\n".toList = 0 ∧
    cpuDigitOccurrences "cpu 1 2 3 4 5 6 7\ncpcpu0 1 2 3\ncpu1 1 2 3\n".toList = 2 ∧
    count_cpus false "cpu 1 2 3 4 5 6 7\ncpcpu0 1 2 3\ncpu1 1 2 3\n".toList = 1 := by
  decide

/-! ## The glyph of a block level -/

/-- The glyph of a block level that is 0 or negative. -/
theorem glyph_nonpos (k : Int) (h : k ≤ 0) : glyph k = ⟨0x00, 0x00, 0x5f⟩ := by
  have h1 : ¬ k > 0 := by omega
  have h2 : ¬ k ≥ 9 := by omega
  simp [glyph, h, h1, h2]

/-- The glyph of a block level from 1 to 8. -/
theorem glyph_mid (k : Int) (h1 : 1 ≤ k) (h8 : k ≤ 8) : glyph k = ⟨0xe2, 0x96, 0x80 + k⟩ := by
  have h0 : ¬ k ≤ 0 := by omega
  have h2 : k > 0 := by omega
  have h3 : ¬ k ≥ 9 := by omega
  simp [glyph, h0, h2, h3]

/-- The glyph of a block level of 9 or more. -/
theorem glyph_high (k : Int) (h : 9 ≤ k) : glyph k = ⟨0xe2, 0x96, 0x93⟩ := by
  have h0 : ¬ k ≤ 0 := by omega
  have h2 : k > 0 := by omega
  have h3 : k ≥ 9 := by omega
  simp [glyph, h0, h2, h3]

/-- C7. Every block level `k ≤ 0` gives the glyph 00 00 5f, the underscore, of width 1
(one byte that is not NUL); every block level `1 ≤ k ≤ 8` gives e2 96 (0x80 + k),
the three bytes of the UTF-8 encoding of U+2580+k, LOWER k EIGHTHS BLOCK. -/
theorem glyph_zero_and_blocks (k : Int) :
    (k ≤ 0 → glyph k = ⟨0x00, 0x00, 0x5f⟩ ∧ (glyph k).bytes = [0x00, 0x00, 0x5f] ∧
      (glyph k).bytes = [0, 0] ++ utf8 0x5f ∧ (glyph k).width = 1) ∧
    (1 ≤ k → k ≤ 8 → glyph k = ⟨0xe2, 0x96, 0x80 + k⟩ ∧
      (glyph k).bytes = [0xe2, 0x96, 0x80 + k.toNat] ∧
      (glyph k).bytes = utf8 (0x2580 + k.toNat) ∧ (glyph k).width = 3) := by
  constructor
  · intro h
    rw [glyph_nonpos k h]
    decide
  · intro h1 h8
    rw [glyph_mid k h1 h8]
    have hk : k = 1 ∨ k = 2 ∨ k = 3 ∨ k = 4 ∨ k = 5 ∨ k = 6 ∨ k = 7 ∨ k = 8 := by omega
    rcases hk with h | h | h | h | h | h | h | h <;> subst h <;> decide

/-- C7 at the block levels 0 and 5. -/
theorem glyph_zero_and_blocks_witness :
    ((0 : Int) ≤ 0 ∧ (glyph 0).bytes = [0x00, 0x00, 0x5f] ∧ (glyph 0).width = 1) ∧
    ((1 : Int) ≤ 5 ∧ (5 : Int) ≤ 8 ∧ (glyph 5).bytes = [0xe2, 0x96, 0x85] ∧
      (glyph 5).bytes = utf8 0x2585) :=
  ⟨⟨by decide, ((glyph_zero_and_blocks 0).1 (by decide)).2.1,
      ((glyph_zero_and_blocks 0).1 (by decide)).2.2.2⟩,
   ⟨by decide, by decide, ((glyph_zero_and_blocks 5).2 (by decide) (by decide)).2.1,
      ((glyph_zero_and_blocks 5).2 (by decide) (by decide)).2.2.1⟩⟩

/-- C8, as stated, fails: the block level 9 does not give e2 96 88, U+2588 FULL BLOCK. -/
theorem glyph_nine_not_full_block :
    (glyph 9).bytes ≠ [0xe2, 0x96, 0x88] ∧ (glyph 9).bytes ≠ utf8 0x2588 := by
  decide

/-- C8, amended. Every block level `k ≥ 9` gives the glyph e2 96 93, the UTF-8 encoding
of U+2593 DARK SHADE; the bytes e2 96 88 of U+2588 FULL BLOCK are the glyph of the
block level 8. -/
theorem glyph_saturated (k : Int) (h : 9 ≤ k) :
    glyph k = ⟨0xe2, 0x96, 0x93⟩ ∧ (glyph k).bytes = [0xe2, 0x96, 0x93] ∧
    (glyph k).bytes = utf8 0x2593 ∧ (glyph 8).bytes = utf8 0x2588 := by
  rw [glyph_high k h]
  decide

/-- The amended C8 at the block level 12. -/
theorem glyph_saturated_witness :
    (9 : Int) ≤ 12 ∧ (glyph 12).bytes = [0xe2, 0x96, 0x93] :=
  ⟨by decide, (glyph_saturated 12 (by decide)).2.1⟩

/-- C9. The glyph of a block level is the glyph of the level clamped to 0..9, and the
glyphs of the ten levels 0..9 are pairwise distinct, as glyphs and as stored bytes;
the glyph of level 5 differs from those of levels 4 and 6. -/
theorem glyph_clamp_distinct (k : Int) :
    glyph k = glyph (max 0 (min k 9)) ∧
    ([0, 1, 2, 3, 4, 5, 6, 7, 8, 9].map glyph).Nodup ∧
    ([0, 1, 2, 3, 4, 5, 6, 7, 8, 9].map (fun i => (glyph i).bytes)).Nodup ∧
    glyph 5 ≠ glyph 4 ∧ glyph 5 ≠ glyph 6 := by
  refine ⟨?_, by decide, by decide, by decide, by decide⟩
  rcases le_or_lt k 0 with h0 | h0
  · have : max 0 (min k 9) = 0 := by omega
    rw [this, glyph_nonpos k h0, glyph_nonpos 0 (le_refl 0)]
  · rcases le_or_lt 9 k with h9 | h9
    · have : max 0 (min k 9) = 9 := by omega
      rw [this, glyph_high k h9, glyph_high 9 (le_refl 9)]
    · have : max 0 (min k 9) = k := by omega
      rw [this]

/-! ## The scrolling graph -/

/-- A push on an array of at least three bytes drops the first three and appends the glyph. -/
theorem graphPush_eq (graph : List Nat) (g : Glyph) (h : 3 ≤ graph.length) :
    graphPush graph g = graph.drop 3 ++ g.bytes := by
  obtain ⟨x, y, z, hR⟩ := List.length_eq_three.mp
    (show (graph.drop (graph.length - 3)).length = 3 by rw [List.length_drop]; omega)
  have hD : (graph.drop 3).length = graph.length - 3 := List.length_drop 3 graph
  have hT : (graph.drop 3).take (graph.length - 3) = graph.drop 3 :=
    List.take_of_length_le (by rw [hD])
  simp only [graphPush, memmove, List.take_zero, List.nil_append, Nat.zero_add, hT, hR]
  rw [List.set_append_right _ _ (by omega)]
  rw [List.set_append_right _ _ (by omega)]
  rw [List.set_append_right _ _ (by omega)]
  have e1 : graph.length - 1 - (graph.drop 3).length = 2 := by omega
  have e2 : graph.length - 2 - (graph.drop 3).length = 1 := by omega
  have e3 : graph.length - 3 - (graph.drop 3).length = 0 := by omega
  rw [e1, e2, e3]
  rfl

/-- Slots of three bytes each make an array of three times as many bytes. -/
theorem length_flatten_slots (slots : List (List Nat)) (h : ∀ s ∈ slots, s.length = 3) :
    slots.flatten.length = 3 * slots.length := by
  induction slots with
  | nil => rfl
  | cons s t ih =>
    have hs := h s (List.mem_cons_self s t)
    have ht := ih (fun x hx => h x (List.mem_cons_of_mem s hx))
    simp only [List.flatten_cons, List.length_append, List.length_cons, hs, ht]
    omega

/-- A push seen on the slots: the first slot leaves, the glyph enters at the end. -/
theorem graphPush_slots (slots : List (List Nat)) (g : Glyph)
    (h3 : ∀ s ∈ slots, s.length = 3) (hne : slots ≠ []) :
    graphPush slots.flatten g = (slots.tail ++ [g.bytes]).flatten := by
  cases slots with
  | nil => exact absurd rfl hne
  | cons s t =>
    have hs := h3 s (List.mem_cons_self s t)
    have hl := length_flatten_slots (s :: t) h3
    rw [List.length_cons] at hl
    rw [graphPush_eq _ _ (by omega)]
    simp only [List.flatten_cons, List.tail_cons, List.flatten_append, List.flatten_nil,
      List.append_nil]
    rw [List.drop_left' hs]

/-- A sequence of pushes seen on the slots. -/
theorem foldl_graphPush_slots (gs : List Glyph) : ∀ (slots : List (List Nat)),
    (∀ s ∈ slots, s.length = 3) → slots ≠ [] →
    gs.foldl graphPush slots.flatten =
      ((slots ++ gs.map Glyph.bytes).drop gs.length).flatten := by
  induction gs with
  | nil => intro slots _ _; simp
  | cons g gs ih =>
    intro slots h3 hne
    rw [List.foldl_cons, graphPush_slots slots g h3 hne]
    have h3' : ∀ s ∈ slots.tail ++ [g.bytes], s.length = 3 := by
      intro s hs
      rcases List.mem_append.mp hs with h | h
      · exact h3 s (List.mem_of_mem_tail h)
      · rw [List.mem_singleton.mp h]; rfl
    rw [ih _ h3' (by simp)]
    cases slots with
    | nil => exact absurd rfl hne
    | cons s t => simp

/-- The capacity is at least 1 and is the configured length when that is at least 1. -/
theorem ul_pos (usage_length : Nat) :
    1 ≤ ul usage_length ∧ (1 ≤ usage_length → ul usage_length = usage_length) := by
  unfold ul
  split <;> omega

/-- C10. For every configured length, hence every capacity `n = ul usage_length ≥ 1`, and
every sequence of glyphs pushed into the freshly initialised graph, the graph holds, in
order, the last `n` of the `n` fillers followed by the pushed glyphs; after `n + 1`
pushes it holds exactly the second to the last pushed glyph; and one push on any graph
of three-byte slots removes the first slot, keeps the others in order and appends the
glyph. -/
theorem scroll_fifo (usage_length : Nat) (gs : List Glyph) :
    (1 ≤ ul usage_length ∧ (1 ≤ usage_length → ul usage_length = usage_length)) ∧
    gs.foldl graphPush (graphInit usage_length) =
      ((List.replicate (ul usage_length) filler ++ gs.map Glyph.bytes).drop gs.length).flatten ∧
    (gs.length = ul usage_length + 1 →
      gs.foldl graphPush (graphInit usage_length) = (gs.tail.map Glyph.bytes).flatten) ∧
    (∀ (slots : List (List Nat)) (g : Glyph), (∀ s ∈ slots, s.length = 3) → slots ≠ [] →
      graphPush slots.flatten g = (slots.tail ++ [g.bytes]).flatten) := by
  have hfill : ∀ s ∈ List.replicate (ul usage_length) filler, s.length = 3 := by
    intro s hs
    rw [(List.mem_replicate.mp hs).2]
    rfl
  have hne : List.replicate (ul usage_length) filler ≠ [] := by
    intro h
    have hl := congrArg List.length h
    rw [List.length_replicate] at hl
    have := (ul_pos usage_length).1
    simp at hl
    omega
  have hall := foldl_graphPush_slots gs (List.replicate (ul usage_length) filler) hfill hne
  refine ⟨ul_pos usage_length, hall, ?_, fun slots g h3 hn => graphPush_slots slots g h3 hn⟩
  intro hlen
  unfold graphInit
  rw [hall, hlen]
  have hn : ul usage_length + 1 = (List.replicate (ul usage_length) filler).length + 1 := by
    rw [List.length_replicate]
  rw [hn, List.drop_append]
  cases gs with
  | nil => rfl
  | cons g gs => rfl

/-- C10 at capacity 2 with the three glyphs of the levels 1, 2, 3, and one push of the
glyph of level 9 on a graph of two arbitrary slots. -/
theorem scroll_fifo_witness :
    ([glyph 1, glyph 2, glyph 3].length = ul 2 + 1 ∧
      [glyph 1, glyph 2, glyph 3].foldl graphPush (graphInit 2) =
        ([glyph 1, glyph 2, glyph 3].tail.map Glyph.bytes).flatten) ∧
    ((∀ s ∈ [[1, 2, 3], [4, 5, 6]], s.length = 3) ∧ [[1, 2, 3], [4, 5, 6]] ≠ [] ∧
      graphPush [[1, 2, 3], [4, 5, 6]].flatten (glyph 9) =
        ([[1, 2, 3], [4, 5, 6]].tail ++ [(glyph 9).bytes]).flatten) :=
  ⟨⟨by decide, (scroll_fifo 2 [glyph 1, glyph 2, glyph 3]).2.2.1 (by decide)⟩,
   ⟨by decide, by decide,
    (scroll_fifo 2 []).2.2.2 [[1, 2, 3], [4, 5, 6]] (glyph 9) (by decide) (by decide)⟩⟩

/-! ## The loop -/

/-- With a tick unit that is not 0 no division of the calculation divides by zero. -/
theorem calculateChecked_eq (clk_tck cpu_count : Int) (s : Samples)
    (hu : clk_tck_u clk_tck ≠ 0) :
    calculateChecked clk_tck cpu_count s = some (calculate clk_tck cpu_count s) := by
  unfold calculateChecked calculate full_ticks_d_micro cdiv
  simp only [hu, if_false]
  by_cases hf : Int.tdiv (t_d_micro s) (clk_tck_u clk_tck) * cpu_count = 0
  · simp [hf]
  · simp [hf]

/-- With a tick unit of 0 the calculation divides by zero. -/
theorem calculateChecked_zero (clk_tck cpu_count : Int) (s : Samples)
    (hu : clk_tck_u clk_tck = 0) :
    calculateChecked clk_tck cpu_count s = none := by
  unfold calculateChecked cdiv
  simp [hu]

/-- The remainder of line 299 never divides by zero. -/
theorem nextCount_eq (usage_length : Nat) (count : Int) :
    nextCount usage_length count =
      some (if usage_length ≠ 0 then (count + 1) % (usage_length : Int) else count + 1) := by
  unfold nextCount cmod
  by_cases h : usage_length = 0
  · simp [h]
  · have h' : (usage_length : Int) ≠ 0 := by exact_mod_cast h
    simp [h, h']

/-- A tick whose time, seek and read succeed goes on with the calculation. -/
theorem tick_of_read (cfg : Config) (env : TickEnv) (s : Loop) (now : Timeval) (c : Counters)
    (ht : env.time = some now) (hs : env.statSeek = true)
    (hr : readAggregate env.feed env.stale = ReadResult.ok c) :
    tick cfg env s =
      (match calculateChecked cfg.clk_tck cfg.cpu_count (sample s.samples now (work c)) with
       | none => Step.trap
       | some none => Step.next (sampled s now (work c))
       | some (some u) => produce cfg env (sampled s now (work c)) u) := by
  unfold tick
  simp only [ht, hs, hr]
  rfl

/-- A tick leaves the loop, with 0 or -2, when its time, seek or read fails. -/
theorem tick_of_failure (cfg : Config) (env : TickEnv) (s : Loop)
    (h : env.time = none ∨ env.statSeek = false ∨
      ∀ c, readAggregate env.feed env.stale ≠ ReadResult.ok c) :
    ∃ ret s', tick cfg env s = Step.leave ret s' ∧ (ret = -2 ↔ env.time = none) ∧
      (ret = 0 ↔ env.time ≠ none) := by
  unfold tick
  cases ht : env.time with
  | none => exact ⟨-2, _, rfl, by simp, by simp⟩
  | some now =>
    cases hs : env.statSeek with
    | false =>
      exact ⟨0, { s with samples := recordTime (flipBuffers s.samples) now }, by simp, by simp,
        by simp⟩
    | true =>
      rcases h with h | h | h
      · rw [ht] at h; cases h
      · rw [hs] at h; cases h
      · cases hr : readAggregate env.feed env.stale with
        | noSpace =>
          exact ⟨0, { s with samples := recordTime (flipBuffers s.samples) now }, by simp,
            by simp, by simp⟩
        | parsingFailed =>
          exact ⟨0, { s with samples := recordTime (flipBuffers s.samples) now }, by simp,
            by simp, by simp⟩
        | ok c => exact absurd hr (h c)

/-- The output in the background, when every call succeeds: the graph file is written
with the whole graph from offset 0 and the spot file is updated. -/
theorem output_next (env : TickEnv) (s s' : Loop) (cpu_perc : Int)
    (h : output env s cpu_perc = Step.next s') :
    s' = { s with
      cpu_file := fileWrite s.cpu_file s.graph s.graph.length s.graph.length
      spot_file := spotUpdate s.spot_file cpu_perc env.spotAfter } := by
  unfold output at h
  split at h
  · cases h
  · simp only at h
    split at h
    · cases h
    · rename_i hgw
      split at h
      · cases h
      · split at h
        · cases h
        · split at h
          · cases h
          · rename_i hsw
            simp only [snprintf_spot, ne_eq, Decidable.not_not] at hsw hgw
            cases h
            simp only [spotUpdate, snprintf_spot, hsw, hgw]

/-- What a tick that is not skipped and goes on has done. -/
theorem produce_next (cfg : Config) (env : TickEnv) (s s' : Loop) (u : Usage)
    (h : produce cfg env s u = Step.next s') :
    s'.samples = s.samples ∧
    s'.count = (if cfg.usage_length ≠ 0 then (s.count + 1) % (cfg.usage_length : Int)
      else s.count + 1) ∧
    s'.graph = graphPush s.graph (glyph u.cpu_block) ∧
    s'.graph_width = widthUpdate s.graph_width (glyph u.cpu_block) ∧
    (cfg.use_background = false →
      s'.stdout = s.stdout ++ display cfg.usage_length s'.count (glyph u.cpu_block) ∧
      s'.cpu_file = s.cpu_file ∧ s'.spot_file = s.spot_file) ∧
    (cfg.use_background = true → s'.stdout = s.stdout ∧
      s'.cpu_file = fileWrite s.cpu_file s'.graph s'.graph.length s'.graph.length ∧
      s'.spot_file = spotUpdate s.spot_file u.cpu_perc env.spotAfter) := by
  unfold produce at h
  rw [nextCount_eq] at h
  simp only at h
  cases hb : cfg.use_background with
  | false =>
    simp only [hb, if_true, Bool.false_eq_true, if_false, Step.next.injEq] at h
    subst h
    simp
  | true =>
    simp only [hb, Bool.true_eq_false, if_false, if_true] at h
    have := output_next env _ s' u.cpu_perc h
    subst this
    simp

/-- A tick that goes on has recorded a time and a work, and was skipped or has produced. -/
theorem tick_next (cfg : Config) (env : TickEnv) (s s' : Loop)
    (h : tick cfg env s = Step.next s') :
    ∃ now c, env.time = some now ∧ env.statSeek = true ∧
      readAggregate env.feed env.stale = ReadResult.ok c ∧
      s'.samples = sample s.samples now (work c) ∧
      ((calculateChecked cfg.clk_tck cfg.cpu_count s'.samples = some none ∧
          s' = sampled s now (work c)) ∨
        ∃ u, calculateChecked cfg.clk_tck cfg.cpu_count s'.samples = some (some u) ∧
          produce cfg env (sampled s now (work c)) u = Step.next s') := by
  cases ht : env.time with
  | none =>
    obtain ⟨ret, s2, h2, -, -⟩ := tick_of_failure cfg env s (Or.inl ht)
    rw [h2] at h; cases h
  | some now =>
    cases hs : env.statSeek with
    | false =>
      obtain ⟨ret, s2, h2, -, -⟩ := tick_of_failure cfg env s (Or.inr (Or.inl hs))
      rw [h2] at h; cases h
    | true =>
      cases hr : readAggregate env.feed env.stale with
      | noSpace =>
        obtain ⟨ret, s2, h2, -, -⟩ := tick_of_failure cfg env s
          (Or.inr (Or.inr (fun c hc => by rw [hr] at hc; cases hc)))
        rw [h2] at h; cases h
      | parsingFailed =>
        obtain ⟨ret, s2, h2, -, -⟩ := tick_of_failure cfg env s
          (Or.inr (Or.inr (fun c hc => by rw [hr] at hc; cases hc)))
        rw [h2] at h; cases h
      | ok c =>
        rw [tick_of_read cfg env s now c ht hs hr] at h
        refine ⟨now, c, rfl, rfl, rfl, ?_⟩
        cases hc : calculateChecked cfg.clk_tck cfg.cpu_count (sample s.samples now (work c)) with
        | none => rw [hc] at h; cases h
        | some o =>
          cases o with
          | none =>
            rw [hc] at h
            simp only [Step.next.injEq] at h
            subst h
            exact ⟨rfl, Or.inl ⟨hc, rfl⟩⟩
          | some u =>
            rw [hc] at h
            simp only at h
            have hp := (produce_next cfg env _ s' u h).1
            have hs' : s'.samples = sample s.samples now (work c) := hp
            exact ⟨hs', Or.inr ⟨u, by rw [hs']; exact hc, h⟩⟩

/-- The glyph a tick produces, read off the state it reaches. -/
theorem glyphProduced_eq (cfg : Config) (env : TickEnv) (s s' : Loop)
    (h : tick cfg env s = Step.next s') :
    glyphProduced cfg env s =
      (match calculateChecked cfg.clk_tck cfg.cpu_count s'.samples with
       | some (some u) => some (glyph u.cpu_block)
       | _ => none) := by
  unfold glyphProduced
  rw [h]

/-- A skipped tick changes the double buffer and nothing else. -/
theorem tick_skipped (cfg : Config) (env : TickEnv) (s s' : Loop)
    (h : tick cfg env s = Step.next s') (hg : glyphProduced cfg env s = none) :
    s' = { s with samples := s'.samples } := by
  obtain ⟨now, c, -, -, -, hs, hcase⟩ := tick_next cfg env s s' h
  rw [glyphProduced_eq cfg env s s' h] at hg
  rcases hcase with ⟨-, rfl⟩ | ⟨u, hu, -⟩
  · rfl
  · rw [hu] at hg; cases hg

/-- A tick that produces the glyph `g` pushes it into the graph, advances `count`, shows
the glyph in the foreground and writes the two files in the background. -/
theorem tick_produced (cfg : Config) (env : TickEnv) (s s' : Loop) (g : Glyph)
    (h : tick cfg env s = Step.next s') (hg : glyphProduced cfg env s = some g) :
    s'.count = (if cfg.usage_length ≠ 0 then (s.count + 1) % (cfg.usage_length : Int)
      else s.count + 1) ∧
    s'.graph = graphPush s.graph g ∧
    s'.graph_width = widthUpdate s.graph_width g ∧
    (cfg.use_background = false →
      s'.stdout = s.stdout ++ display cfg.usage_length s'.count g ∧
      s'.cpu_file = s.cpu_file ∧ s'.spot_file = s.spot_file) ∧
    (cfg.use_background = true → s'.stdout = s.stdout ∧
      s'.cpu_file = fileWrite s.cpu_file s'.graph s'.graph.length s'.graph.length ∧
      ∃ u, calculateChecked cfg.clk_tck cfg.cpu_count s'.samples = some (some u) ∧
        s'.spot_file = spotUpdate s.spot_file u.cpu_perc env.spotAfter) := by
  obtain ⟨now, c, -, -, -, hs, hcase⟩ := tick_next cfg env s s' h
  rw [glyphProduced_eq cfg env s s' h] at hg
  rcases hcase with ⟨hn, -⟩ | ⟨u, hu, hp⟩
  · rw [hn] at hg; cases hg
  · rw [hu] at hg
    simp only [Option.some.injEq] at hg
    subst hg
    obtain ⟨-, h2, h3, h4, h5, h6⟩ := produce_next cfg env _ s' u hp
    exact ⟨h2, h3, h4, h5, fun hb => ⟨(h6 hb).1, (h6 hb).2.1, u, hu, (h6 hb).2.2⟩⟩

/-- The capacity `ul` is the larger of the configured length and 1. -/
theorem ul_eq_max (usage_length : Nat) : ul usage_length = max usage_length 1 := by
  unfold ul
  split <;> omega

/-- The initialised graph has three bytes for each of its `ul` slots. -/
theorem length_graphInit (usage_length : Nat) :
    (graphInit usage_length).length = 3 * ul usage_length := by
  unfold graphInit
  rw [length_flatten_slots _ (fun s hs => by rw [(List.mem_replicate.mp hs).2]; rfl),
    List.length_replicate]

/-- A push keeps the length of a graph of at least three bytes. -/
theorem length_graphPush (graph : List Nat) (g : Glyph) (h : 3 ≤ graph.length) :
    (graphPush graph g).length = graph.length := by
  rw [graphPush_eq graph g h, List.length_append, List.length_drop]
  simp only [Glyph.bytes, List.length_cons, List.length_nil]
  omega

/-- A write of the whole of `data` from offset 0 over a file that is not longer leaves
exactly `data`. -/
theorem fileWrite_all (file data : List Nat) (h : file.length ≤ data.length) :
    fileWrite file data data.length data.length = data := by
  unfold fileWrite
  simp only [List.take_length, Int.toNat_ofNat]
  rw [List.drop_of_length_le h, List.append_nil]

/-- The graph after a run is the graph before it with the glyphs produced pushed. -/
theorem run_graph (cfg : Config) (envs : List TickEnv) : ∀ (s s' : Loop),
    run cfg envs s = Step.next s' →
    s'.graph = (glyphsProduced cfg envs s).foldl graphPush s.graph := by
  induction envs with
  | nil =>
    intro s s' h
    simp only [run, Step.next.injEq] at h
    subst h
    rfl
  | cons env envs ih =>
    intro s s' h
    unfold run at h
    unfold glyphsProduced
    cases ht : tick cfg env s with
    | trap => rw [ht] at h; cases h
    | leave ret s1 => rw [ht] at h; cases h
    | next s1 =>
      rw [ht] at h
      simp only at h ⊢
      rw [ih s1 s' h, List.foldl_append]
      cases hg : glyphProduced cfg env s with
      | none =>
        have := tick_skipped cfg env s s1 ht hg
        rw [this]
        rfl
      | some g =>
        rw [(tick_produced cfg env s s1 g ht hg).2.1]
        rfl

/-- In every state a run reaches from the start the graph has `3 * ul` bytes and the
graph file is not longer. -/
theorem run_sizes (cfg : Config) (envs : List TickEnv) : ∀ (s s' : Loop),
    run cfg envs s = Step.next s' →
    s.graph.length = 3 * ul cfg.usage_length → s.cpu_file.length ≤ 3 * ul cfg.usage_length →
    s'.graph.length = 3 * ul cfg.usage_length ∧ s'.cpu_file.length ≤ 3 * ul cfg.usage_length := by
  induction envs with
  | nil =>
    intro s s' h hg hf
    simp only [run, Step.next.injEq] at h
    subst h
    exact ⟨hg, hf⟩
  | cons env envs ih =>
    intro s s' h hg hf
    unfold run at h
    have hpos := (ul_pos cfg.usage_length).1
    cases ht : tick cfg env s with
    | trap => rw [ht] at h; cases h
    | leave ret s1 => rw [ht] at h; cases h
    | next s1 =>
      rw [ht] at h
      simp only at h
      apply ih s1 s' h
      · cases hgp : glyphProduced cfg env s with
        | none => rw [tick_skipped cfg env s s1 ht hgp]; exact hg
        | some g =>
          rw [(tick_produced cfg env s s1 g ht hgp).2.1, length_graphPush _ _ (by omega)]
          exact hg
      · cases hgp : glyphProduced cfg env s with
        | none => rw [tick_skipped cfg env s s1 ht hgp]; exact hf
        | some g =>
          obtain ⟨-, h2, -, h4, h5⟩ := tick_produced cfg env s s1 g ht hgp
          have hl : s1.graph.length = 3 * ul cfg.usage_length := by
            rw [h2, length_graphPush _ _ (by omega)]; exact hg
          cases hb : cfg.use_background with
          | false => rw [(h4 hb).2.1]; exact hf
          | true =>
            rw [(h5 hb).2.1, fileWrite_all _ _ (by omega)]
            omega

/-- C11. For every configured length the graph has `3 * max(L,1)` bytes at
initialisation, after every push and in every state the loop reaches from the start;
on every tick in the background that is not skipped and on which every call succeeds,
the graph file is written from offset 0 with the whole graph, and after the tick its
content is the graph, `3 * max(L,1)` bytes. -/
theorem graph_sink (cfg : Config) (out : List Nat) (envs : List TickEnv) (env : TickEnv)
    (s s' : Loop) (g : Glyph)
    (hrun : run cfg envs (Loop.init cfg out) = Step.next s)
    (htick : tick cfg env s = Step.next s')
    (hbg : cfg.use_background = true)
    (hg : glyphProduced cfg env s = some g) :
    (graphInit cfg.usage_length).length = 3 * max cfg.usage_length 1 ∧
    s.graph.length = 3 * max cfg.usage_length 1 ∧
    s'.graph = graphPush s.graph g ∧
    s'.graph.length = 3 * max cfg.usage_length 1 ∧
    s'.cpu_file = fileWrite s.cpu_file s'.graph s'.graph.length s'.graph.length ∧
    s'.cpu_file = s'.graph ∧
    s'.cpu_file.length = 3 * max cfg.usage_length 1 := by
  have hpos := (ul_pos cfg.usage_length).1
  have hmax := ul_eq_max cfg.usage_length
  have h0 : (Loop.init cfg out).graph.length = 3 * ul cfg.usage_length :=
    length_graphInit cfg.usage_length
  obtain ⟨hsg, hsf⟩ := run_sizes cfg envs _ s hrun h0 (Nat.zero_le _)
  obtain ⟨-, h2, -, -, h5⟩ := tick_produced cfg env s s' g htick hg
  have hl : s'.graph.length = 3 * ul cfg.usage_length := by
    rw [h2, length_graphPush _ _ (by omega)]; exact hsg
  have hw := (h5 hbg).2.1
  have hall : s'.cpu_file = s'.graph := by
    rw [hw]; exact fileWrite_all _ _ (by omega)
  refine ⟨by rw [← hmax]; exact length_graphInit _, by rw [← hmax]; exact hsg, h2,
    by rw [← hmax]; exact hl, hw, hall, by rw [hall, ← hmax]; exact hl⟩

/-- C11 at a graph of 3 glyphs: after a first tick the second, not skipped, leaves the
graph file equal to the graph, 9 bytes. -/
theorem graph_sink_witness :
    run (exampleConfig true) [firstTick] (Loop.init (exampleConfig true) []) =
      Step.next (afterFirst true) ∧
    tick (exampleConfig true) secondTick (afterFirst true) = Step.next (afterSecond true) ∧
    (exampleConfig true).use_background = true ∧
    glyphProduced (exampleConfig true) secondTick (afterFirst true) = some (glyph 4) ∧
    (afterSecond true).graph.length = 3 * max 3 1 ∧
    (afterSecond true).cpu_file = (afterSecond true).graph ∧
    (afterSecond true).cpu_file.length = 3 * max 3 1 :=
  have h := graph_sink (exampleConfig true) [] [firstTick] secondTick (afterFirst true)
    (afterSecond true) (glyph 4) (by decide) (by decide) rfl (by decide)
  ⟨by decide, by decide, rfl, by decide, h.2.2.2.1, h.2.2.2.2.2.1, h.2.2.2.2.2.2⟩

/-! ## The spot file -/

/-- The text of `%ld` for a value from -99,999,999 to 999,999,999 has at most 9
characters. -/
theorem length_decimal_le (x : Int) (hlo : -99999999 ≤ x) (hhi : x ≤ 999999999) :
    (decimal x).length ≤ 9 := by
  unfold decimal
  rw [List.length_map]
  cases x with
  | ofNat m =>
    have hm : m < 10 ^ 9 := by
      have : (m : Int) ≤ 999999999 := hhi
      omega
    exact Nat.repr_length m 9 (by decide) hm
  | negSucc m =>
    have hm : m + 1 < 10 ^ 8 := by
      have h1 : -99999999 ≤ Int.negSucc m := hlo
      rw [Int.negSucc_eq] at h1
      omega
    have h8 := Nat.repr_length (m + 1) 8 (by decide) hm
    show ("-" ++ Nat.repr (m + 1)).length ≤ 9
    rw [String.length_append]
    have : "-".length = 1 := rfl
    omega

/-- A file cut or extended to `n` bytes has `n` bytes. -/
theorem length_fileTruncate (file : List Nat) (n : Nat) : (fileTruncate file n).length = n := by
  unfold fileTruncate
  rw [List.length_append, List.length_take, List.length_replicate]
  omega

/-- The update of the spot file with a text of at most 9 characters leaves that text. -/
theorem spotUpdate_short (spot_file after : List Nat) (cpu_perc : Int)
    (h : (decimal cpu_perc).length ≤ 9) :
    spotUpdate spot_file cpu_perc after = decimal cpu_perc := by
  unfold spotUpdate snprintf_spot fileWrite
  simp only
  rw [List.take_of_length_le h, List.append_assoc, List.take_left, Int.toNat_ofNat,
    List.take_length]
  rw [List.drop_of_length_le (by rw [length_fileTruncate]), List.append_nil]

/-- C12, as stated, fails: with one CPU, the work 0 and one second later the work
1,000,000,000, every call succeeds, the percentage is 1,000,000,000 and the spot file
holds the first 9 characters of its text and a NUL, not the 10 characters. -/
theorem spot_sink_ten_characters :
    run oneCpuConfig [idleTick, burstTick] (Loop.init oneCpuConfig []) = Step.next afterBurst ∧
    calculate 100 1 afterBurst.samples = some ⟨1000000000, 90000000⟩ ∧
    decimal 1000000000 = [49, 48, 48, 48, 48, 48, 48, 48, 48, 48] ∧
    afterBurst.spot_file = [49, 48, 48, 48, 48, 48, 48, 48, 48, 0] ∧
    afterBurst.spot_file ≠ decimal 1000000000 ∧
    spotUpdate (decimal 7) 1000000000 [] ≠ decimal 1000000000 := by
  decide

/-- C12, amended. For every percentage from -99,999,999 to 999,999,999, the values whose
text has at most 9 characters, the update of the spot file (all calls succeeding)
leaves exactly the decimal text of the percentage, of that length, whatever the content
before and whatever follows the text in memory; this is what every tick in the
background that is not skipped does with its percentage; 7 then 100 leaves "100". -/
theorem spot_sink (spot_file after : List Nat) (cpu_perc : Int)
    (hlo : -99999999 ≤ cpu_perc) (hhi : cpu_perc ≤ 999999999) :
    spotUpdate spot_file cpu_perc after = decimal cpu_perc ∧
    (spotUpdate spot_file cpu_perc after).length = (decimal cpu_perc).length ∧
    (∀ (cfg : Config) (env : TickEnv) (s s' : Loop) (g : Glyph),
      tick cfg env s = Step.next s' → cfg.use_background = true →
      glyphProduced cfg env s = some g →
      ∃ u, calculateChecked cfg.clk_tck cfg.cpu_count s'.samples = some (some u) ∧
        s'.spot_file = spotUpdate s.spot_file u.cpu_perc env.spotAfter ∧
        (-99999999 ≤ u.cpu_perc → u.cpu_perc ≤ 999999999 →
          s'.spot_file = decimal u.cpu_perc)) ∧
    spotUpdate (spotUpdate spot_file 7 after) 100 after = [49, 48, 48] := by
  have h := spotUpdate_short spot_file after cpu_perc (length_decimal_le cpu_perc hlo hhi)
  refine ⟨h, by rw [h], ?_, ?_⟩
  · intro cfg env s s' g ht hb hg
    obtain ⟨u, hu, hs⟩ := (tick_produced cfg env s s' g ht hg).2.2.2.2 hb |>.2.2
    exact ⟨u, hu, hs, fun h1 h2 => by
      rw [hs]; exact spotUpdate_short _ _ _ (length_decimal_le _ h1 h2)⟩
  · rw [spotUpdate_short _ after 100 (by decide)]
    decide

/-- The amended C12 at the percentage 100 written over the text of 7, and at a
percentage of 3 characters written over a longer content. -/
theorem spot_sink_witness :
    ((-99999999 : Int) ≤ 100 ∧ (100 : Int) ≤ 999999999 ∧
      spotUpdate (decimal 7) 100 [] = decimal 100 ∧
      (spotUpdate (decimal 7) 100 []).length = 3) ∧
    ((-99999999 : Int) ≤ 412 ∧ (412 : Int) ≤ 999999999 ∧
      spotUpdate (decimal 1000000) 412 [55, 55] = decimal 412) :=
  ⟨⟨by decide, by decide, (spot_sink (decimal 7) [] 100 (by decide) (by decide)).1,
      (spot_sink (decimal 7) [] 100 (by decide) (by decide)).2.1⟩,
   ⟨by decide, by decide,
      (spot_sink (decimal 1000000) [55, 55] 412 (by decide) (by decide)).1⟩⟩

/-! ## Skipped ticks and the first tick -/

/-- With the same time in both slots the full capacity is 0. -/
theorem full_ticks_same_time (clk_tck cpu_count : Int) (s : Samples) (now : Timeval) (w : Int)
    (h : micro now = micro (current s).timestamp) :
    full_ticks_d_micro clk_tck cpu_count (sample s now w) = 0 := by
  have hf := full_ticks_d_micro_eq clk_tck cpu_count (sample s now w)
  have hz : fullCapacity clk_tck cpu_count (current (sample s now w)) (previous (sample s now w))
      = 0 := by
    rw [current_sample, previous_sample]
    simp [fullCapacity, h]
  rw [hz] at hf
  rw [hf]
  cases (sample s now w).t_p <;> rfl

/-- C13. Whenever the full capacity computed on a tick is 0, as it is when the time
recorded is the time of the other slot, the tick goes on to the next one with `count`,
the graph, its widths, both files and the display stream as they were; only the double
buffer changes, and in it the slot written: the other slot holds what it held. -/
theorem skipped_tick (cfg : Config) (env : TickEnv) (s : Loop) (now : Timeval) (c : Counters)
    (ht : env.time = some now) (hs : env.statSeek = true)
    (hr : readAggregate env.feed env.stale = ReadResult.ok c)
    (hu : clk_tck_u cfg.clk_tck ≠ 0)
    (h0 : full_ticks_d_micro cfg.clk_tck cfg.cpu_count (sample s.samples now (work c)) = 0) :
    tick cfg env s = Step.next { s with samples := sample s.samples now (work c) } ∧
    glyphProduced cfg env s = none ∧
    current (sample s.samples now (work c)) = ⟨now, work c⟩ ∧
    previous (sample s.samples now (work c)) = current s.samples ∧
    (∀ (s0 : Samples) (w : Int), micro now = micro (current s0).timestamp →
      full_ticks_d_micro cfg.clk_tck cfg.cpu_count (sample s0 now w) = 0) := by
  have hc : calculateChecked cfg.clk_tck cfg.cpu_count (sample s.samples now (work c)) =
      some none := by
    rw [calculateChecked_eq _ _ _ hu]
    unfold calculate
    rw [if_pos h0]
  have htick : tick cfg env s = Step.next { s with samples := sample s.samples now (work c) } := by
    rw [tick_of_read cfg env s now c ht hs hr, hc]
    rfl
  refine ⟨htick, ?_, current_sample _ _ _, previous_sample _ _ _,
    fun s0 w h => full_ticks_same_time _ _ s0 now w h⟩
  rw [glyphProduced_eq cfg env s _ htick]
  simp only [hc]

/-- C13 at the tick `sameTimeTick` after two ticks in the background: the state is
that after the second tick but for the work 965 in the slot written. -/
theorem skipped_tick_witness :
    sameTimeTick.time = some ⟨1700000001, 0⟩ ∧ sameTimeTick.statSeek = true ∧
    readAggregate sameTimeTick.feed sameTimeTick.stale =
      ReadResult.ok ⟨900, 10, 50, 800, 5, 2, 3⟩ ∧
    clk_tck_u (exampleConfig true).clk_tck ≠ 0 ∧
    full_ticks_d_micro 100 4
      (sample (afterSecond true).samples ⟨1700000001, 0⟩ (work ⟨900, 10, 50, 800, 5, 2, 3⟩)) = 0 ∧
    tick (exampleConfig true) sameTimeTick (afterSecond true) =
      Step.next { afterSecond true with
        samples := sample (afterSecond true).samples ⟨1700000001, 0⟩ 965 } :=
  ⟨rfl, rfl, by decide, by decide, by decide,
    (skipped_tick (exampleConfig true) sameTimeTick (afterSecond true) ⟨1700000001, 0⟩
      ⟨900, 10, 50, 800, 5, 2, 3⟩ rfl rfl (by decide) (by decide) (by decide)).1⟩

/-- The bytes of a glyph are never those of the filler. -/
theorem glyph_bytes_ne_filler (k : Int) : (glyph k).bytes ≠ filler := by
  rcases le_or_lt k 0 with h0 | h0
  · rw [glyph_nonpos k h0]; decide
  · rcases le_or_lt 9 k with h9 | h9
    · rw [glyph_high k h9]; decide
    · rw [glyph_mid k (by omega) (by omega)]
      intro h
      simp only [Glyph.bytes, filler, List.cons.injEq] at h
      exact absurd h.1 (by decide)

/-- The push of a glyph changes the initialised graph. -/
theorem graphPush_graphInit_ne (usage_length : Nat) (k : Int) :
    graphPush (graphInit usage_length) (glyph k) ≠ graphInit usage_length := by
  obtain ⟨n, hn⟩ : ∃ n, ul usage_length = n + 1 :=
    ⟨ul usage_length - 1, by have := (ul_pos usage_length).1; omega⟩
  unfold graphInit
  rw [hn]
  rw [graphPush_slots _ _ (fun s hs => by rw [(List.mem_replicate.mp hs).2]; rfl) (by simp)]
  intro h
  have h2 : List.replicate (n + 1) filler = List.replicate n filler ++ [filler] :=
    List.replicate_succ' n filler
  rw [h2] at h
  have h3 : (List.replicate n filler ++ [filler]).tail ++ [(glyph k).bytes] =
      List.replicate n filler ++ [(glyph k).bytes] := by
    rw [← h2]
    rfl
  rw [h3] at h
  simp only [List.flatten_append, List.flatten_cons, List.flatten_nil, List.append_nil,
    List.append_cancel_left_eq] at h
  exact glyph_bytes_ne_filler k h

/-- C14, as stated, fails: on the first tick after the start, at the second
1,700,000,000 with the work 165, in the background, the other slot is the zero sentinel
and the tick is not skipped: the percentage 0 and the glyph of level 0 are produced,
the graph changes and both files are written. -/
theorem first_tick_not_skipped :
    previous (afterFirst true).samples = ⟨⟨0, 0⟩, 0⟩ ∧
    tick (exampleConfig true) firstTick (Loop.init (exampleConfig true) []) =
      Step.next (afterFirst true) ∧
    calculate 100 4 (afterFirst true).samples = some ⟨0, 0⟩ ∧
    glyphProduced (exampleConfig true) firstTick (Loop.init (exampleConfig true) []) =
      some (glyph 0) ∧
    (afterFirst true).graph ≠ (Loop.init (exampleConfig true) []).graph ∧
    (afterFirst true).graph = [0, 0, 32, 0, 0, 32, 0, 0, 95] ∧
    (afterFirst true).cpu_file = [0, 0, 32, 0, 0, 32, 0, 0, 95] ∧
    (afterFirst true).cpu_file ≠ (Loop.init (exampleConfig true) []).cpu_file ∧
    (afterFirst true).spot_file = decimal 0 ∧
    (afterFirst true).spot_file ≠ (Loop.init (exampleConfig true) []).spot_file := by
  decide

/-- C14, amended. On the first tick after the start the slot that still holds the zero
sentinel is the previous sample of the calculation: the tick is skipped exactly when
`((now in microseconds) / microsPerTick) * cpuCount` is 0; otherwise the percentage
`(work * 100) / fullCapacity` and the block level `(work * 9) / fullCapacity` are
produced, the glyph is pushed, which changes the graph, and in the background, every
call succeeding, the graph file holds the graph and the spot file is updated with the
percentage. -/
theorem first_tick (cfg : Config) (env : TickEnv) (out : List Nat) (now : Timeval)
    (c : Counters)
    (ht : env.time = some now) (hs : env.statSeek = true)
    (hr : readAggregate env.feed env.stale = ReadResult.ok c)
    (hu : clk_tck_u cfg.clk_tck ≠ 0) :
    previous (sample Samples.init now (work c)) = ⟨⟨0, 0⟩, 0⟩ ∧
    tick cfg env (Loop.init cfg out) =
      (if Int.tdiv (micro now) (clk_tck_u cfg.clk_tck) * cfg.cpu_count = 0
       then Step.next (sampled (Loop.init cfg out) now (work c))
       else produce cfg env (sampled (Loop.init cfg out) now (work c))
        { cpu_perc := Int.tdiv (work c * 100)
            (Int.tdiv (micro now) (clk_tck_u cfg.clk_tck) * cfg.cpu_count)
          cpu_block := Int.tdiv (work c * 9)
            (Int.tdiv (micro now) (clk_tck_u cfg.clk_tck) * cfg.cpu_count) }) ∧
    (∀ s' : Loop, Int.tdiv (micro now) (clk_tck_u cfg.clk_tck) * cfg.cpu_count ≠ 0 →
      tick cfg env (Loop.init cfg out) = Step.next s' →
      s'.graph = graphPush (graphInit cfg.usage_length)
        (glyph (Int.tdiv (work c * 9)
          (Int.tdiv (micro now) (clk_tck_u cfg.clk_tck) * cfg.cpu_count))) ∧
      s'.graph ≠ graphInit cfg.usage_length ∧
      (cfg.use_background = true → s'.cpu_file = s'.graph ∧
        s'.spot_file = spotUpdate [] (Int.tdiv (work c * 100)
          (Int.tdiv (micro now) (clk_tck_u cfg.clk_tck) * cfg.cpu_count)) env.spotAfter)) := by
  have hprev : previous (sample Samples.init now (work c)) = ⟨⟨0, 0⟩, 0⟩ := by
    rw [previous_sample]; rfl
  have hcalc : calculateChecked cfg.clk_tck cfg.cpu_count (sample Samples.init now (work c)) =
      some (specCalc cfg.clk_tck cfg.cpu_count ⟨now, work c⟩ ⟨⟨0, 0⟩, 0⟩) := by
    rw [calculateChecked_eq _ _ _ hu, calculate_eq_specCalc, current_sample, hprev]
  have hfull : fullCapacity cfg.clk_tck cfg.cpu_count ⟨now, work c⟩ ⟨⟨0, 0⟩, 0⟩ =
      Int.tdiv (micro now) (clk_tck_u cfg.clk_tck) * cfg.cpu_count := by
    simp [fullCapacity, micro]
  have htick := tick_of_read cfg env (Loop.init cfg out) now c ht hs hr
  have hinit : (Loop.init cfg out).samples = Samples.init := rfl
  rw [hinit, hcalc] at htick
  unfold specCalc at htick
  rw [hfull] at htick
  simp only [sub_zero] at htick
  have htick' : tick cfg env (Loop.init cfg out) =
      (if Int.tdiv (micro now) (clk_tck_u cfg.clk_tck) * cfg.cpu_count = 0
       then Step.next (sampled (Loop.init cfg out) now (work c))
       else produce cfg env (sampled (Loop.init cfg out) now (work c))
        { cpu_perc := Int.tdiv (work c * 100)
            (Int.tdiv (micro now) (clk_tck_u cfg.clk_tck) * cfg.cpu_count)
          cpu_block := Int.tdiv (work c * 9)
            (Int.tdiv (micro now) (clk_tck_u cfg.clk_tck) * cfg.cpu_count) }) := by
    rw [htick]
    by_cases hz : Int.tdiv (micro now) (clk_tck_u cfg.clk_tck) * cfg.cpu_count = 0
    · rw [if_pos hz, if_pos hz]
    · rw [if_neg hz, if_neg hz]
  refine ⟨hprev, htick', ?_⟩
  intro s' hne hnext
  rw [htick', if_neg hne] at hnext
  obtain ⟨-, -, h3, -, -, h6⟩ := produce_next cfg env _ s' _ hnext
  have hg : s'.graph = graphPush (graphInit cfg.usage_length)
      (glyph (Int.tdiv (work c * 9)
        (Int.tdiv (micro now) (clk_tck_u cfg.clk_tck) * cfg.cpu_count))) := h3
  refine ⟨hg, by rw [hg]; exact graphPush_graphInit_ne _ _, fun hb => ?_⟩
  obtain ⟨-, hw, hsp⟩ := h6 hb
  have hl : s'.graph.length = 3 * ul cfg.usage_length := by
    rw [hg, length_graphPush _ _ (by
      rw [length_graphInit]; have := (ul_pos cfg.usage_length).1; omega), length_graphInit]
  refine ⟨?_, hsp⟩
  rw [hw]
  exact fileWrite_all _ _ (Nat.zero_le _)

/-- The amended C14 at `firstTick` in the background. -/
theorem first_tick_witness :
    firstTick.time = some ⟨1700000000, 0⟩ ∧ firstTick.statSeek = true ∧
    readAggregate firstTick.feed firstTick.stale = ReadResult.ok ⟨100, 10, 50, 800, 5, 2, 3⟩ ∧
    clk_tck_u (exampleConfig true).clk_tck ≠ 0 ∧
    previous (sample Samples.init ⟨1700000000, 0⟩ (work ⟨100, 10, 50, 800, 5, 2, 3⟩)) =
      ⟨⟨0, 0⟩, 0⟩ :=
  ⟨rfl, rfl, by decide, by decide,
    (first_tick (exampleConfig true) firstTick [] ⟨1700000000, 0⟩ ⟨100, 10, 50, 800, 5, 2, 3⟩
      rfl rfl (by decide) (by decide)).1⟩

/-! ## The exit status -/

/-- The output in the background leaves the loop with 0 only. -/
theorem output_leave (env : TickEnv) (s s' : Loop) (cpu_perc ret : Int)
    (h : output env s cpu_perc = Step.leave ret s') : ret = 0 := by
  unfold output at h
  split at h
  · cases h; rfl
  · simp only at h
    split at h
    · cases h; rfl
    · split at h
      · cases h; rfl
      · split at h
        · cases h; rfl
        · split at h
          · cases h; rfl
          · cases h

/-- A tick leaves the loop with -2 when the time cannot be obtained and with 0 in
every other case; it never leaves it with -1. -/
theorem tick_leave (cfg : Config) (env : TickEnv) (s s' : Loop) (ret : Int)
    (h : tick cfg env s = Step.leave ret s') :
    (env.time = none ∧ ret = -2) ∨ (env.time ≠ none ∧ ret = 0) := by
  by_cases hf : env.time = none ∨ env.statSeek = false ∨
      ∀ c, readAggregate env.feed env.stale ≠ ReadResult.ok c
  · obtain ⟨r, s2, h2, hm, hz⟩ := tick_of_failure cfg env s hf
    rw [h2] at h
    cases h
    by_cases ht : env.time = none
    · exact Or.inl ⟨ht, hm.mpr ht⟩
    · exact Or.inr ⟨ht, hz.mpr ht⟩
  · simp only [not_or, not_forall, not_not] at hf
    obtain ⟨ht, hs, c, hr⟩ := hf
    obtain ⟨now, hnow⟩ := Option.ne_none_iff_exists'.mp ht
    have hs' : env.statSeek = true := by
      cases hb : env.statSeek with
      | false => exact absurd hb hs
      | true => rfl
    rw [tick_of_read cfg env s now c hnow hs' hr] at h
    refine Or.inr ⟨ht, ?_⟩
    cases hc : calculateChecked cfg.clk_tck cfg.cpu_count (sample s.samples now (work c)) with
    | none => rw [hc] at h; cases h
    | some o =>
      cases o with
      | none => rw [hc] at h; cases h
      | some u =>
        rw [hc] at h
        simp only at h
        unfold produce at h
        rw [nextCount_eq] at h
        simp only at h
        cases hb : cfg.use_background with
        | false => simp [hb] at h
        | true =>
          simp only [hb, Bool.true_eq_false, if_false, if_true] at h
          exact output_leave env _ s' u.cpu_perc ret h

/-- C15 at failing inputs: when, in the loop, the `lseek` on `/proc/stat` fails, or the
`lseek` or the `write` (a short write of 5 of 9 bytes) on the graph file, or the
`ftruncate`, the `lseek` or the `write` on the spot file, `main` returns 0, not -1:
the `break` goes through `ret = 0`.  A failure of `gettimeofday` does give -2, and
the failures before the loop (a first or second argument that is no number, a failed
`open` or `ftruncate`, a failed `lseek` in `count_cpus`, no CPU counted) give -1. -/
theorem exit_status_of_failures :
    (main (exampleStart exampleArgs) [firstTick, { secondTick with statSeek := false }] =
        Outcome.exit 0 ∧
      main (exampleStart exampleArgs) [{ firstTick with graphSeek := false }] = Outcome.exit 0 ∧
      main (exampleStart exampleArgs) [{ firstTick with graphWrite := 5 }] = Outcome.exit 0 ∧
      main (exampleStart exampleArgs) [{ firstTick with graphWrite := -1 }] = Outcome.exit 0 ∧
      main (exampleStart exampleArgs) [{ firstTick with spotTruncate := false }] =
        Outcome.exit 0 ∧
      main (exampleStart exampleArgs) [{ firstTick with spotSeek := false }] = Outcome.exit 0 ∧
      main (exampleStart exampleArgs) [{ firstTick with spotWrite := 0 }] = Outcome.exit 0) ∧
    main (exampleStart exampleArgs) [firstTick, { secondTick with time := none }] =
      Outcome.exit (-2) ∧
    (main (exampleStart ["abc".toList]) [] = Outcome.exit (-1) ∧
      main (exampleStart ["1050".toList, "x".toList]) [] = Outcome.exit (-1) ∧
      main { exampleStart exampleArgs with statOpen := false } [] = Outcome.exit (-1) ∧
      main { exampleStart exampleArgs with cpuOpen := false } [] = Outcome.exit (-1) ∧
      main { exampleStart exampleArgs with cpuTruncate := false } [] = Outcome.exit (-1) ∧
      main { exampleStart exampleArgs with spotOpen := false } [] = Outcome.exit (-1) ∧
      main { exampleStart exampleArgs with spotTruncate := false } [] = Outcome.exit (-1) ∧
      main { exampleStart exampleArgs with countSeekFailed := true } [] = Outcome.exit (-1) ∧
      main { exampleStart exampleArgs with statText := "cpu 1 2 3\n".toList } [] =
        Outcome.exit (-1)) := by
  decide

/-! ## The alternation of the two slots -/

/-- The sampling part of a tick moves both pointers to the other slot. -/
theorem sample_pointers (s : Samples) (now : Timeval) (w : Int) :
    (sample s now w).t_p ≠ s.t_p ∧ (sample s now w).work_p = (sample s now w).t_p := by
  cases h : s.t_p <;> simp [sample, flipBuffers, recordTime, recordWork, h]

/-- The slot a tick does not write keeps its time and its work. -/
theorem sample_other_slot (s : Samples) (now : Timeval) (w : Int) :
    (s.t_p = Slot.a → (sample s now w).t_a = s.t_a ∧ (sample s now w).work_a = s.work_a ∧
      (sample s now w).t_b = now ∧ (sample s now w).work_b = w) ∧
    (s.t_p = Slot.b → (sample s now w).t_b = s.t_b ∧ (sample s now w).work_b = s.work_b ∧
      (sample s now w).t_a = now ∧ (sample s now w).work_a = w) := by
  cases h : s.t_p <;> simp [sample, flipBuffers, recordTime, recordWork, h]

/-- C16. Every tick that goes on, skipped or not, has written its time and its work into
the slot the pointers did not designate before it, the slot of the tick before, whose
content it has left unchanged; so after two ticks in a row the two slots hold the
samples of these two ticks, the later one as current and the earlier one as previous. -/
theorem slots_alternate (cfg : Config) (env1 env2 : TickEnv) (s s1 s2 : Loop)
    (h1 : tick cfg env1 s = Step.next s1) (h2 : tick cfg env2 s1 = Step.next s2) :
    ∃ now1 c1 now2 c2,
      env1.time = some now1 ∧ readAggregate env1.feed env1.stale = ReadResult.ok c1 ∧
      env2.time = some now2 ∧ readAggregate env2.feed env2.stale = ReadResult.ok c2 ∧
      s1.samples = sample s.samples now1 (work c1) ∧
      s2.samples = sample s1.samples now2 (work c2) ∧
      s1.samples.t_p ≠ s.samples.t_p ∧ s2.samples.t_p ≠ s1.samples.t_p ∧
      s1.samples.work_p = s1.samples.t_p ∧ s2.samples.work_p = s2.samples.t_p ∧
      current s1.samples = ⟨now1, work c1⟩ ∧ previous s1.samples = current s.samples ∧
      current s2.samples = ⟨now2, work c2⟩ ∧ previous s2.samples = ⟨now1, work c1⟩ ∧
      ((s2.samples.t_a = now2 ∧ s2.samples.work_a = work c2 ∧
          s2.samples.t_b = now1 ∧ s2.samples.work_b = work c1) ∨
        (s2.samples.t_b = now2 ∧ s2.samples.work_b = work c2 ∧
          s2.samples.t_a = now1 ∧ s2.samples.work_a = work c1)) := by
  obtain ⟨now1, c1, ht1, -, hr1, hs1, -⟩ := tick_next cfg env1 s s1 h1
  obtain ⟨now2, c2, ht2, -, hr2, hs2, -⟩ := tick_next cfg env2 s1 s2 h2
  have hc1 : current s1.samples = ⟨now1, work c1⟩ := by rw [hs1]; exact current_sample _ _ _
  have hc2 : current s2.samples = ⟨now2, work c2⟩ := by rw [hs2]; exact current_sample _ _ _
  have hp2 : previous s2.samples = ⟨now1, work c1⟩ := by
    rw [hs2, previous_sample]; exact hc1
  refine ⟨now1, c1, now2, c2, ht1, hr1, ht2, hr2, hs1, hs2, ?_, ?_, ?_, ?_, hc1, ?_, hc2, hp2, ?_⟩
  · rw [hs1]; exact (sample_pointers _ _ _).1
  · rw [hs2]; exact (sample_pointers _ _ _).1
  · rw [hs1]; exact (sample_pointers _ _ _).2
  · rw [hs2]; exact (sample_pointers _ _ _).2
  · rw [hs1]; exact previous_sample _ _ _
  · cases hp : s2.samples.t_p with
    | a =>
      left
      simp only [current, previous, hp, Sample.mk.injEq] at hc2 hp2
      exact ⟨hc2.1, hc2.2, hp2.1, hp2.2⟩
    | b =>
      right
      simp only [current, previous, hp, Sample.mk.injEq] at hc2 hp2
      exact ⟨hc2.1, hc2.2, hp2.1, hp2.2⟩

/-- C16 at the first two ticks after the start, followed by a skipped tick. -/
theorem slots_alternate_witness :
    (tick (exampleConfig true) firstTick (Loop.init (exampleConfig true) []) =
        Step.next (afterFirst true) ∧
      tick (exampleConfig true) secondTick (afterFirst true) = Step.next (afterSecond true) ∧
      (afterSecond true).samples =
        ⟨⟨1700000001, 0⟩, ⟨1700000000, 0⟩, 365, 165, Slot.a, Slot.a⟩) ∧
    (tick (exampleConfig true) sameTimeTick (afterSecond true)).state (afterSecond true) =
      { afterSecond true with
        samples := ⟨⟨1700000001, 0⟩, ⟨1700000001, 0⟩, 365, 965, Slot.b, Slot.b⟩ } ∧
    ∃ now1 c1 now2 c2, current (afterSecond true).samples = ⟨now2, work c2⟩ ∧
      previous (afterSecond true).samples = ⟨now1, work c1⟩ ∧
      firstTick.time = some now1 ∧ secondTick.time = some now2 :=
  ⟨⟨by decide, by decide, by decide⟩, by decide,
    match slots_alternate (exampleConfig true) firstTick secondTick
      (Loop.init (exampleConfig true) []) (afterFirst true) (afterSecond true)
      (by decide) (by decide) with
    | ⟨now1, c1, now2, c2, ht1, _, ht2, _, _, _, _, _, _, _, _, _, hc2, hp2, _⟩ =>
      ⟨now1, c1, now2, c2, hc2, hp2, ht1, ht2⟩⟩

/-! ## The display in the foreground -/

/-- The counter after one more glyph, when it was `k` modulo `L`. -/
theorem count_step (L k : Nat) (hL : 1 ≤ L) :
    (if L ≠ 0 then (((k % L : Nat) : Int) + 1) % (L : Int) else ((k % L : Nat) : Int) + 1) =
      (((k + 1) % L : Nat) : Int) := by
  rw [if_pos (by omega)]
  have h : (((k % L : Nat) : Int) + 1) = (((k % L + 1 : Nat)) : Int) := by push_cast; rfl
  rw [h, ← Int.natCast_mod]
  congr 1
  exact (Nat.mod_add_mod k L 1)

/-- In the foreground a run shows the glyphs it produces in lines of `L` glyphs, and
`count` is the number of glyphs shown modulo `L`. -/
theorem run_display (cfg : Config) (hfg : cfg.use_background = false)
    (hL : 1 ≤ cfg.usage_length) (envs : List TickEnv) : ∀ (s s' : Loop) (k : Nat),
    run cfg envs s = Step.next s' → s.count = ((k % cfg.usage_length : Nat) : Int) →
    s'.stdout = s.stdout ++ shownInLines cfg.usage_length k (glyphsProduced cfg envs s) ∧
    s'.count = (((k + (glyphsProduced cfg envs s).length) % cfg.usage_length : Nat) : Int) := by
  induction envs with
  | nil =>
    intro s s' k h hk
    simp only [run, Step.next.injEq] at h
    subst h
    simp [glyphsProduced, shownInLines, hk]
  | cons env envs ih =>
    intro s s' k h hk
    unfold run at h
    unfold glyphsProduced
    cases ht : tick cfg env s with
    | trap => rw [ht] at h; cases h
    | leave ret s1 => rw [ht] at h; cases h
    | next s1 =>
      rw [ht] at h
      simp only at h ⊢
      cases hg : glyphProduced cfg env s with
      | none =>
        have hs1 := tick_skipped cfg env s s1 ht hg
        have hc : s1.count = s.count := by rw [hs1]
        have ho : s1.stdout = s.stdout := by rw [hs1]
        obtain ⟨i1, i2⟩ := ih s1 s' k h (by rw [hc]; exact hk)
        simp only [Option.toList, List.nil_append]
        exact ⟨by rw [i1, ho], i2⟩
      | some g =>
        obtain ⟨h1, -, -, h4, -⟩ := tick_produced cfg env s s1 g ht hg
        rw [hk, count_step _ _ hL] at h1
        obtain ⟨ho, -, -⟩ := h4 hfg
        obtain ⟨i1, i2⟩ := ih s1 s' (k + 1) h h1
        simp only [Option.toList, List.singleton_append, List.length_cons, shownInLines]
        refine ⟨?_, by rw [i2]; congr 2; omega⟩
        rw [i1, ho]
        have hd : display cfg.usage_length s1.count g =
            g.bytes ++ (if cfg.usage_length ∣ k + 1 then [10] else []) := by
          unfold display
          rw [h1]
          have hiff : (cfg.usage_length ≠ 0 ∧ (((k + 1) % cfg.usage_length : Nat) : Int) = 0) ↔
              cfg.usage_length ∣ k + 1 := by
            rw [Nat.dvd_iff_mod_eq_zero]
            constructor
            · rintro ⟨-, h0⟩; exact_mod_cast h0
            · intro h0; exact ⟨by omega, by exact_mod_cast h0⟩
          simp only [hiff]
        rw [hd]
        simp only [List.append_assoc]
        rfl

/-- Glyphs that do not reach a multiple of `L` are shown without a line break. -/
theorem shownInLines_no_break (L : Nat) (gs rest : List Glyph) : ∀ k : Nat,
    (∀ j, j < gs.length → ¬ L ∣ k + j + 1) →
    shownInLines L k (gs ++ rest) =
      (gs.map Glyph.bytes).flatten ++ shownInLines L (k + gs.length) rest := by
  induction gs with
  | nil => intro k _; rfl
  | cons g gs ih =>
    intro k h
    have h0 : ¬ L ∣ k + 1 := h 0 (by simp)
    have hrest : ∀ j, j < gs.length → ¬ L ∣ (k + 1) + j + 1 := by
      intro j hj
      have := h (j + 1) (by simp; omega)
      rw [show k + 1 + j + 1 = k + (j + 1) + 1 by omega]
      exact this
    have hi := ih (k + 1) hrest
    rw [show k + 1 + gs.length = k + (gs.length + 1) by omega] at hi
    simp only [List.cons_append, shownInLines, if_neg h0, List.append_nil, List.map_cons,
      List.flatten_cons, List.length_cons, List.append_assoc]
    exact congrArg (fun x => g.bytes ++ x) hi

/-- A full line: `L` glyphs after a multiple of `L` are shown as their bytes and one
line break at the end. -/
theorem shownInLines_line (L m : Nat) (hL : 1 ≤ L) (line rest : List Glyph)
    (hlen : line.length = L) :
    shownInLines L (m * L) (line ++ rest) =
      (line.map Glyph.bytes).flatten ++ [10] ++ shownInLines L ((m + 1) * L) rest := by
  obtain ⟨front, last, rfl⟩ : ∃ front last, line = front ++ [last] := by
    have hne : line ≠ [] := by intro h; rw [h] at hlen; simp at hlen; omega
    exact ⟨line.dropLast, line.getLast hne, (List.dropLast_append_getLast hne).symm⟩
  simp only [List.length_append, List.length_cons, List.length_nil] at hlen
  have hnb : ∀ j, j < front.length → ¬ L ∣ m * L + j + 1 := by
    intro j hj hd
    rw [Nat.add_assoc] at hd
    have h2 : L ∣ j + 1 := (Nat.dvd_add_right (Nat.dvd_mul_left L m)).mp hd
    exact Nat.not_dvd_of_pos_of_lt (by omega) (by omega) h2
  rw [List.append_assoc, shownInLines_no_break L front _ (m * L) hnb]
  have hd : L ∣ m * L + front.length + 1 := by
    rw [Nat.add_assoc, hlen]
    exact Nat.dvd_add (Nat.dvd_mul_left L m) (Nat.dvd_refl L)
  have he : m * L + front.length + 1 = (m + 1) * L := by
    rw [Nat.add_assoc, hlen, Nat.add_mul, Nat.one_mul]
  have hd' : L ∣ (m + 1) * L := Nat.dvd_mul_left L (m + 1)
  simp only [List.singleton_append, shownInLines, List.map_append, List.map_cons,
    List.map_nil, List.flatten_append, List.flatten_cons, List.flatten_nil, List.append_nil,
    List.append_assoc, he, if_pos hd', List.nil_append]
  rfl

/-- C17. In the foreground with a graph length `L >= 1`, whatever the ticks, the display
stream after a run from the start is what was there before followed by the glyphs
produced, each followed by a line break if and only if the number of glyphs shown so
far is a multiple of `L`; `count` is that number modulo `L`, from 0 to `L - 1`, and is 0
exactly at those multiples; so `L` glyphs after a multiple of `L` make one line, ended
by its line break. -/
theorem display_lines (cfg : Config) (out : List Nat) (envs : List TickEnv) (s : Loop)
    (hfg : cfg.use_background = false) (hL : 1 ≤ cfg.usage_length)
    (hrun : run cfg envs (Loop.init cfg out) = Step.next s) :
    s.stdout = out ++
      shownInLines cfg.usage_length 0 (glyphsProduced cfg envs (Loop.init cfg out)) ∧
    s.count =
      (((glyphsProduced cfg envs (Loop.init cfg out)).length % cfg.usage_length : Nat) : Int) ∧
    0 ≤ s.count ∧ s.count < cfg.usage_length ∧
    (s.count = 0 ↔ cfg.usage_length ∣ (glyphsProduced cfg envs (Loop.init cfg out)).length) ∧
    (∀ (k : Nat) (g : Glyph) (gs : List Glyph),
      shownInLines cfg.usage_length k (g :: gs) =
        g.bytes ++ (if cfg.usage_length ∣ k + 1 then [10] else []) ++
          shownInLines cfg.usage_length (k + 1) gs) ∧
    (∀ (m : Nat) (line rest : List Glyph), line.length = cfg.usage_length →
      shownInLines cfg.usage_length (m * cfg.usage_length) (line ++ rest) =
        (line.map Glyph.bytes).flatten ++ [10] ++
          shownInLines cfg.usage_length ((m + 1) * cfg.usage_length) rest) := by
  have h0 : (Loop.init cfg out).count = ((0 % cfg.usage_length : Nat) : Int) := by
    simp [Loop.init]
  obtain ⟨h1, h2⟩ := run_display cfg hfg hL envs _ s 0 hrun h0
  rw [Nat.zero_add] at h2
  have hlt : (glyphsProduced cfg envs (Loop.init cfg out)).length % cfg.usage_length <
      cfg.usage_length := Nat.mod_lt _ (by omega)
  refine ⟨h1, h2, by rw [h2]; exact Int.natCast_nonneg _, by rw [h2]; exact_mod_cast hlt, ?_,
    fun _ _ _ => rfl, fun m line rest hlen => shownInLines_line _ m hL line rest hlen⟩
  rw [h2, Nat.dvd_iff_mod_eq_zero]
  exact Int.natCast_eq_zero

/-- C17 at a graph length of 3 and four ticks: the line break follows the third glyph
and `count` is 1. -/
theorem display_lines_witness :
    (exampleConfig false).use_background = false ∧ 1 ≤ (exampleConfig false).usage_length ∧
    run (exampleConfig false) fourTicks (Loop.init (exampleConfig false) []) =
      Step.next afterFour ∧
    afterFour.stdout = [] ++ shownInLines 3 0
      (glyphsProduced (exampleConfig false) fourTicks (Loop.init (exampleConfig false) [])) ∧
    afterFour.stdout = [0, 0, 95, 226, 150, 132, 226, 150, 147, 10, 226, 150, 132] ∧
    afterFour.count = 1 :=
  have h := display_lines (exampleConfig false) [] fourTicks afterFour rfl (by decide)
    (by decide)
  ⟨rfl, by decide, by decide, h.1, by decide, by decide⟩

/-! ## Saturation -/

/-- The saturated glyph is the glyph of the block levels from 9 on. -/
theorem glyph_eq_saturated_iff (k : Int) : glyph k = ⟨0xe2, 0x96, 0x93⟩ ↔ 9 ≤ k := by
  constructor
  · intro h
    by_contra hk
    rcases le_or_lt k 0 with h0 | h0
    · rw [glyph_nonpos k h0] at h
      exact absurd h (by decide)
    · rw [glyph_mid k (by omega) (by omega)] at h
      simp only [Glyph.mk.injEq, true_and] at h
      omega
  · exact glyph_high k

/-- The zero marker is the glyph of the block levels up to 0. -/
theorem glyph_eq_marker_iff (k : Int) : glyph k = ⟨0x00, 0x00, 0x5f⟩ ↔ k ≤ 0 := by
  constructor
  · intro h
    by_contra hk
    rcases le_or_lt 9 k with h9 | h9
    · rw [glyph_high k h9] at h
      exact absurd h (by decide)
    · rw [glyph_mid k (by omega) (by omega)] at h
      simp only [Glyph.mk.injEq] at h
      exact absurd h.1 (by decide)
  · exact glyph_nonpos k

/-- C18. On every tick with a work delta that is not negative and a positive full
capacity, both taken as current minus previous, the tick is not skipped, the block
level is 9 or more, and the glyph the saturated one, if and only if the percentage is
100 or more; and when the block level is 0 or less, the glyph being the zero marker,
the percentage is at most 11. -/
theorem percentage_saturation (clk_tck cpu_count : Int) (s : Samples) (now : Timeval) (w : Int)
    (hwd : 0 ≤ w - (current s).work)
    (hfc : 0 < fullCapacity clk_tck cpu_count ⟨now, w⟩ (current s)) :
    ∃ u, calculate clk_tck cpu_count (sample s now w) = some u ∧
      u.cpu_perc = Int.tdiv ((w - (current s).work) * 100)
        (fullCapacity clk_tck cpu_count ⟨now, w⟩ (current s)) ∧
      u.cpu_block = Int.tdiv ((w - (current s).work) * 9)
        (fullCapacity clk_tck cpu_count ⟨now, w⟩ (current s)) ∧
      (9 ≤ u.cpu_block ↔ 100 ≤ u.cpu_perc) ∧
      (glyph u.cpu_block = ⟨0xe2, 0x96, 0x93⟩ ↔ 100 ≤ u.cpu_perc) ∧
      (u.cpu_block ≤ 0 → u.cpu_perc ≤ 11) ∧
      (glyph u.cpu_block = ⟨0x00, 0x00, 0x5f⟩ → u.cpu_perc ≤ 11) := by
  generalize hF : fullCapacity clk_tck cpu_count ⟨now, w⟩ (current s) = fc at hfc
  generalize hD : w - (current s).work = wd at hwd
  have hcalc : calculate clk_tck cpu_count (sample s now w) =
      some ⟨Int.tdiv (wd * 100) fc, Int.tdiv (wd * 9) fc⟩ := by
    rw [calculate_eq_specCalc, current_sample, previous_sample]
    unfold specCalc
    simp only [hF, hD]
    rw [if_neg (by omega)]
  have hp : Int.tdiv (wd * 100) fc = wd * 100 / fc :=
    Int.tdiv_eq_ediv (by omega) (by omega)
  have hb : Int.tdiv (wd * 9) fc = wd * 9 / fc :=
    Int.tdiv_eq_ediv (by omega) (by omega)
  have h9 : 9 ≤ wd * 9 / fc ↔ 100 ≤ wd * 100 / fc := by
    rw [Int.le_ediv_iff_mul_le hfc, Int.le_ediv_iff_mul_le hfc]
    constructor <;> intro h <;> omega
  have h0 : wd * 9 / fc ≤ 0 → wd * 100 / fc ≤ 11 := by
    intro h
    have h1 : wd * 9 / fc < 1 := by omega
    rw [Int.ediv_lt_iff_lt_mul hfc] at h1
    have h2 : wd * 100 / fc < 12 := by
      rw [Int.ediv_lt_iff_lt_mul hfc]
      omega
    omega
  refine ⟨_, hcalc, rfl, rfl, ?_, ?_, ?_, ?_⟩
  · show 9 ≤ Int.tdiv (wd * 9) fc ↔ 100 ≤ Int.tdiv (wd * 100) fc
    rw [hp, hb]; exact h9
  · show glyph (Int.tdiv (wd * 9) fc) = _ ↔ 100 ≤ Int.tdiv (wd * 100) fc
    rw [glyph_eq_saturated_iff, hp, hb]; exact h9
  · show Int.tdiv (wd * 9) fc ≤ 0 → Int.tdiv (wd * 100) fc ≤ 11
    rw [hp, hb]; exact h0
  · show glyph (Int.tdiv (wd * 9) fc) = _ → Int.tdiv (wd * 100) fc ≤ 11
    rw [glyph_eq_marker_iff, hp, hb]; exact h0

/-- C18 at the example of the work 1000 then 1165 one second apart with 4 CPUs: the
percentage is 41 and the block level 3, neither saturated nor zero. -/
theorem percentage_saturation_witness :
    0 ≤ (1165 : Int) - (current exampleBefore).work ∧
    0 < fullCapacity 100 4 ⟨⟨1001, 0⟩, 1165⟩ (current exampleBefore) ∧
    ∃ u, calculate 100 4 (sample exampleBefore ⟨1001, 0⟩ 1165) = some u ∧
      (9 ≤ u.cpu_block ↔ 100 ≤ u.cpu_perc) ∧ (u.cpu_block ≤ 0 → u.cpu_perc ≤ 11) :=
  ⟨by decide, by decide,
    match percentage_saturation 100 4 exampleBefore ⟨1001, 0⟩ 1165 (by decide) (by decide) with
    | ⟨u, h1, _, _, h4, _, h6, _⟩ => ⟨u, h1, h4, h6⟩⟩

/-! ## No division by zero -/

/-- The output in the background divides nothing. -/
theorem output_ne_trap (env : TickEnv) (s : Loop) (cpu_perc : Int) :
    output env s cpu_perc ≠ Step.trap := by
  unfold output
  intro h
  split at h
  · cases h
  · simp only at h
    split at h
    · cases h
    · split at h
      · cases h
      · split at h
        · cases h
        · split at h
          · cases h
          · cases h

/-- The part of a tick that is not skipped never divides by zero. -/
theorem produce_ne_trap (cfg : Config) (env : TickEnv) (s : Loop) (u : Usage) :
    produce cfg env s u ≠ Step.trap := by
  unfold produce
  rw [nextCount_eq]
  simp only
  intro h
  cases hb : cfg.use_background with
  | false => simp [hb] at h
  | true =>
    simp only [hb, Bool.true_eq_false, if_false, if_true] at h
    exact output_ne_trap env _ _ h

/-- A tick divides by zero only when the tick unit is 0. -/
theorem tick_trap (cfg : Config) (env : TickEnv) (s : Loop)
    (h : tick cfg env s = Step.trap) : clk_tck_u cfg.clk_tck = 0 := by
  by_contra hu
  by_cases hf : env.time = none ∨ env.statSeek = false ∨
      ∀ c, readAggregate env.feed env.stale ≠ ReadResult.ok c
  · obtain ⟨r, s2, h2, -, -⟩ := tick_of_failure cfg env s hf
    rw [h2] at h
    cases h
  · simp only [not_or, not_forall, not_not] at hf
    obtain ⟨ht, hs, c, hr⟩ := hf
    obtain ⟨now, hnow⟩ := Option.ne_none_iff_exists'.mp ht
    have hs' : env.statSeek = true := by
      cases hb : env.statSeek with
      | false => exact absurd hb hs
      | true => rfl
    rw [tick_of_read cfg env s now c hnow hs' hr, calculateChecked_eq _ _ _ hu] at h
    cases hc : calculate cfg.clk_tck cfg.cpu_count (sample s.samples now (work c)) with
    | none => rw [hc] at h; cases h
    | some u =>
      rw [hc] at h
      exact produce_ne_trap cfg env _ u h

/-- A run divides by zero only when the tick unit is 0. -/
theorem run_trap (cfg : Config) (envs : List TickEnv) : ∀ s : Loop,
    run cfg envs s = Step.trap → clk_tck_u cfg.clk_tck = 0 := by
  induction envs with
  | nil => intro s h; cases h
  | cons env envs ih =>
    intro s h
    unfold run at h
    cases ht : tick cfg env s with
    | trap => exact tick_trap cfg env s ht
    | leave ret s1 => rw [ht] at h; cases h
    | next s1 => rw [ht] at h; exact ih s1 h

/-- A chain of early returns that ends well has passed every test. -/
theorem ok_of_ite {α : Type} {c : Prop} [Decidable c] {e : Int} {x : Except Int α} {r : α}
    (h : (if c then Except.error e else x) = Except.ok r) : x = Except.ok r := by
  by_cases hc : c
  · rw [if_pos hc] at h; cases h
  · rw [if_neg hc] at h; exact h

/-- The start-up hands the clock tick rate of `sysconf` to the loop. -/
theorem startUp_clk_tck (st : StartEnv) (cfg : Config) (out : List Nat)
    (h : startUp st = Except.ok (cfg, out)) : cfg.clk_tck = st.clk_tck := by
  unfold startUp at h
  have h10 := ok_of_ite (ok_of_ite (ok_of_ite (ok_of_ite (ok_of_ite (ok_of_ite (ok_of_ite
    (ok_of_ite (ok_of_ite (ok_of_ite h)))))))))
  injection h10 with h11
  injection h11 with h12 _
  rw [← h12]

/-- The tick unit for a clock tick rate from 1 to 1,000,000 is at least 1. -/
theorem clk_tck_u_pos (clk_tck : Int) (h1 : 1 ≤ clk_tck) (h2 : clk_tck ≤ 1000000) :
    1 ≤ clk_tck_u clk_tck := by
  unfold clk_tck_u U_PER_S
  rw [Int.tdiv_eq_ediv (by decide) (by omega), Int.le_ediv_iff_mul_le (by omega)]
  omega

/-- The tick unit for a clock tick rate above 1,000,000 is 0. -/
theorem clk_tck_u_zero (clk_tck : Int) (h : 1000000 < clk_tck) : clk_tck_u clk_tck = 0 := by
  unfold clk_tck_u U_PER_S
  rw [Int.tdiv_eq_ediv (by decide) (by omega)]
  exact Int.ediv_eq_zero_of_lt (by decide) h

/-- C19. For every clock tick rate from 1 to 1,000,000 the division of line 65 has a
divisor that is not 0 and gives a tick unit of at least 1; then no division of the
calculation divides by zero, the percentage and the block level being divided only by
a full capacity that is not 0, the remainder of line 299 is taken only by a graph
length that is not 0, and no tick, no run and no execution of `main` divides by zero,
whatever the times, the works and the number of CPUs.  For a clock tick rate above
1,000,000 the tick unit is 0 and the calculation divides by it. -/
theorem no_division_by_zero (clk_tck : Int) :
    (1 ≤ clk_tck → clk_tck ≤ 1000000 →
      cdiv U_PER_S clk_tck = some (clk_tck_u clk_tck) ∧ 1 ≤ clk_tck_u clk_tck ∧
      (∀ (cpu_count : Int) (s : Samples),
        cdiv (t_d_micro s) (clk_tck_u clk_tck) =
          some (Int.tdiv (t_d_micro s) (clk_tck_u clk_tck)) ∧
        calculateChecked clk_tck cpu_count s = some (calculate clk_tck cpu_count s) ∧
        (∀ u, calculate clk_tck cpu_count s = some u →
          full_ticks_d_micro clk_tck cpu_count s ≠ 0 ∧
          cdiv (work_d s * 100) (full_ticks_d_micro clk_tck cpu_count s) = some u.cpu_perc ∧
          cdiv (work_d s * 9) (full_ticks_d_micro clk_tck cpu_count s) = some u.cpu_block)) ∧
      (∀ (usage_length : Nat) (count : Int), nextCount usage_length count ≠ none) ∧
      (∀ (cfg : Config) (env : TickEnv) (s : Loop), cfg.clk_tck = clk_tck →
        tick cfg env s ≠ Step.trap) ∧
      (∀ (cfg : Config) (envs : List TickEnv) (s : Loop), cfg.clk_tck = clk_tck →
        run cfg envs s ≠ Step.trap) ∧
      (∀ (st : StartEnv) (envs : List TickEnv), st.clk_tck = clk_tck →
        main st envs ≠ Outcome.trap)) ∧
    (1000000 < clk_tck →
      clk_tck_u clk_tck = 0 ∧
      ∀ (cpu_count : Int) (s : Samples),
        cdiv (t_d_micro s) (clk_tck_u clk_tck) = none ∧
        calculateChecked clk_tck cpu_count s = none) := by
  constructor
  · intro h1 h2
    have hu := clk_tck_u_pos clk_tck h1 h2
    have hne : clk_tck_u clk_tck ≠ 0 := by omega
    refine ⟨?_, hu, ?_, ?_, ?_, ?_, ?_⟩
    · unfold cdiv
      rw [if_neg (by omega)]
      rfl
    · intro cpu_count s
      refine ⟨by unfold cdiv; rw [if_neg hne], calculateChecked_eq _ _ _ hne, ?_⟩
      intro u hcalc
      unfold calculate at hcalc
      split at hcalc
      · cases hcalc
      · rename_i hfull
        simp only [Option.some.injEq] at hcalc
        subst hcalc
        exact ⟨hfull, by unfold cdiv; rw [if_neg hfull], by unfold cdiv; rw [if_neg hfull]⟩
    · intro L count
      rw [nextCount_eq]
      exact Option.some_ne_none _
    · intro cfg env s hc ht
      have := tick_trap cfg env s ht
      rw [hc] at this
      exact hne this
    · intro cfg envs s hc ht
      have := run_trap cfg envs s ht
      rw [hc] at this
      exact hne this
    · intro st envs hc hm
      have hcd : cdiv U_PER_S st.clk_tck = some (clk_tck_u st.clk_tck) := by
        unfold cdiv
        rw [if_neg (by omega)]
        rfl
      have hrun : ∀ (cfg : Config) (out : List Nat), cfg.clk_tck = st.clk_tck →
          loopAndReturn cfg envs out ≠ Outcome.trap := by
        intro cfg out hcfg hx
        unfold loopAndReturn at hx
        cases hr : run cfg envs (Loop.init cfg out) with
        | trap =>
          have := run_trap cfg envs _ hr
          rw [hcfg, hc] at this
          exact hne this
        | next s1 => rw [hr] at hx; cases hx
        | leave ret s1 => rw [hr] at hx; cases hx
      unfold main at hm
      rw [hcd] at hm
      simp only at hm
      cases hst : startUp st with
      | error status => rw [hst] at hm; cases hm
      | ok r =>
        obtain ⟨cfg, out⟩ := r
        have hclk := startUp_clk_tck st cfg out hst
        rw [hst] at hm
        simp only at hm
        split at hm
        · split at hm
          · cases hm
          · cases hm
          · cases hm
          · exact hrun cfg out hclk hm
        · exact hrun cfg out hclk hm
  · intro h
    have hz := clk_tck_u_zero clk_tck h
    refine ⟨hz, fun cpu_count s => ⟨by unfold cdiv; rw [if_pos hz], calculateChecked_zero _ _ _ hz⟩⟩

/-- C19 at the clock tick rate 100, with a tick unit of 10,000, and at the rate
2,000,000, with a tick unit of 0. -/
theorem no_division_by_zero_witness :
    ((1 : Int) ≤ 100 ∧ (100 : Int) ≤ 1000000 ∧ 1 ≤ clk_tck_u 100 ∧
      tick (exampleConfig true) secondTick (afterFirst true) ≠ Step.trap) ∧
    ((1000000 : Int) < 2000000 ∧ clk_tck_u 2000000 = 0 ∧
      tick ⟨3, true, 2000000, 4⟩ secondTick (afterFirst true) = Step.trap) :=
  ⟨⟨by decide, by decide, ((no_division_by_zero 100).1 (by decide) (by decide)).2.1,
      ((no_division_by_zero 100).1 (by decide) (by decide)).2.2.2.2.1
        (exampleConfig true) secondTick (afterFirst true) rfl⟩,
   ⟨by decide, ((no_division_by_zero 2000000).2 (by decide)).1, by decide⟩⟩

/-! ## The alphabet of the graph -/

/-- The bytes of every glyph are a slot of the alphabet. -/
theorem glyph_bytes_mem_alphabet (k : Int) : (glyph k).bytes ∈ alphabet := by
  rcases le_or_lt k 0 with h0 | h0
  · rw [glyph_nonpos k h0]; decide
  · rcases le_or_lt 9 k with h9 | h9
    · rw [glyph_high k h9]; decide
    · rw [glyph_mid k (by omega) (by omega)]
      have hk : k = 1 ∨ k = 2 ∨ k = 3 ∨ k = 4 ∨ k = 5 ∨ k = 6 ∨ k = 7 ∨ k = 8 := by omega
      rcases hk with h | h | h | h | h | h | h | h <;> subst h <;> decide

/-- Slots of the alphabet are the slots of a list of its code points. -/
theorem points_of_slots (slots : List (List Nat)) (h : ∀ s ∈ slots, s ∈ alphabet) :
    ∃ cps : List Nat, cps.length = slots.length ∧ (∀ cp ∈ cps, cp ∈ alphabetPoints) ∧
      slots = cps.map slotOf := by
  induction slots with
  | nil => exact ⟨[], rfl, fun _ h => absurd h (List.not_mem_nil _), rfl⟩
  | cons s t ih =>
    obtain ⟨cps, hl, hm, he⟩ := ih (fun x hx => h x (List.mem_cons_of_mem s hx))
    obtain ⟨cp, hcp, hs⟩ := List.mem_map.mp (h s (List.mem_cons_self s t))
    refine ⟨cp :: cps, by simp [hl], ?_, by simp [hs, he]⟩
    intro x hx
    rcases List.mem_cons.mp hx with rfl | hx
    · exact hcp
    · exact hm x hx

/-- Without its NUL bytes the graph of a list of code points of the alphabet is the
UTF-8 encoding of these code points one after the other. -/
theorem filter_slots (cps : List Nat) (h : ∀ cp ∈ cps, cp ∈ alphabetPoints) :
    ((cps.map slotOf).flatten).filter (fun b => b != 0) = (cps.map utf8).flatten := by
  induction cps with
  | nil => rfl
  | cons cp t ih =>
    have hcp : (slotOf cp).filter (fun b => b != 0) = utf8 cp := by
      have hall : ∀ x ∈ alphabetPoints, (slotOf x).filter (fun b => b != 0) = utf8 x := by
        decide
      exact hall cp (h cp (List.mem_cons_self cp t))
    simp only [List.map_cons, List.flatten_cons, List.filter_append, hcp,
      ih (fun x hx => h x (List.mem_cons_of_mem cp hx))]

/-- The glyphs a run produces are glyphs of block levels. -/
theorem glyphsProduced_levels (cfg : Config) (envs : List TickEnv) : ∀ s : Loop,
    ∃ levels : List Int, glyphsProduced cfg envs s = levels.map glyph := by
  induction envs with
  | nil => intro s; exact ⟨[], rfl⟩
  | cons env envs ih =>
    intro s
    unfold glyphsProduced
    cases ht : tick cfg env s with
    | trap => exact ⟨[], rfl⟩
    | leave ret s1 => exact ⟨[], rfl⟩
    | next s1 =>
      obtain ⟨levels, hl⟩ := ih s1
      simp only [hl]
      rw [glyphProduced_eq cfg env s s1 ht]
      cases hc : calculateChecked cfg.clk_tck cfg.cpu_count s1.samples with
      | none => exact ⟨levels, rfl⟩
      | some o =>
        cases o with
        | none => exact ⟨levels, rfl⟩
        | some u => exact ⟨u.cpu_block :: levels, rfl⟩

/-- C20. At initialisation and after every push, whatever the block levels, the graph is
made of `max(L,1)` three-byte slots, each one of 00 00 20, 00 00 5f, e2 96 81 ..
e2 96 88 and e2 96 93; so without its NUL bytes it is the UTF-8 encoding of `max(L,1)`
characters, each one of space, underscore, U+2581 .. U+2588 and U+2593; and the graph
of every state the loop reaches from the start is such a graph. -/
theorem slot_alphabet (usage_length : Nat) (levels : List Int) :
    alphabet = [[0x00, 0x00, 0x20], [0x00, 0x00, 0x5f], [0xe2, 0x96, 0x81], [0xe2, 0x96, 0x82],
      [0xe2, 0x96, 0x83], [0xe2, 0x96, 0x84], [0xe2, 0x96, 0x85], [0xe2, 0x96, 0x86],
      [0xe2, 0x96, 0x87], [0xe2, 0x96, 0x88], [0xe2, 0x96, 0x93]] ∧
    (∃ slots : List (List Nat),
      (levels.map glyph).foldl graphPush (graphInit usage_length) = slots.flatten ∧
      slots.length = max usage_length 1 ∧
      (∀ s ∈ slots, s ∈ alphabet) ∧
      ∃ cps : List Nat, cps.length = max usage_length 1 ∧
        (∀ cp ∈ cps, cp ∈ alphabetPoints) ∧
        slots = cps.map slotOf ∧
        ((levels.map glyph).foldl graphPush (graphInit usage_length)).filter (fun b => b != 0) =
          (cps.map utf8).flatten) ∧
    (∀ (cfg : Config) (out : List Nat) (envs : List TickEnv) (s : Loop),
      cfg.usage_length = usage_length →
      run cfg envs (Loop.init cfg out) = Step.next s →
      ∃ ks : List Int, s.graph = (ks.map glyph).foldl graphPush (graphInit usage_length)) := by
  refine ⟨by decide, ?_, ?_⟩
  · have hfill : ∀ s ∈ List.replicate (ul usage_length) filler, s.length = 3 := by
      intro s hs
      rw [(List.mem_replicate.mp hs).2]
      rfl
    have hne : List.replicate (ul usage_length) filler ≠ [] := by
      intro h
      have hl := congrArg List.length h
      rw [List.length_replicate] at hl
      have := (ul_pos usage_length).1
      simp at hl
      omega
    have hall := foldl_graphPush_slots (levels.map glyph)
      (List.replicate (ul usage_length) filler) hfill hne
    rw [List.length_map] at hall
    have hmem : ∀ s ∈ (List.replicate (ul usage_length) filler ++
        (levels.map glyph).map Glyph.bytes).drop levels.length, s ∈ alphabet := by
      intro s hs
      rcases List.mem_append.mp (List.mem_of_mem_drop hs) with h | h
      · rw [(List.mem_replicate.mp h).2]; decide
      · obtain ⟨g, hg, rfl⟩ := List.mem_map.mp h
        obtain ⟨k, -, rfl⟩ := List.mem_map.mp hg
        exact glyph_bytes_mem_alphabet k
    have hlen : ((List.replicate (ul usage_length) filler ++
        (levels.map glyph).map Glyph.bytes).drop levels.length).length = max usage_length 1 := by
      rw [List.length_drop, List.length_append, List.length_replicate, List.length_map,
        List.length_map, ul_eq_max]
      omega
    obtain ⟨cps, hc1, hc2, hc3⟩ := points_of_slots _ hmem
    refine ⟨_, hall, hlen, hmem, cps, by rw [hc1, hlen], hc2, hc3, ?_⟩
    show ((levels.map glyph).foldl graphPush (List.replicate (ul usage_length) filler).flatten).filter
      (fun b => b != 0) = _
    rw [hall, hc3]
    exact filter_slots cps hc2
  · intro cfg out envs s hL hrun
    obtain ⟨ks, hks⟩ := glyphsProduced_levels cfg envs (Loop.init cfg out)
    refine ⟨ks, ?_⟩
    rw [run_graph cfg envs _ s hrun, hks, ← hL]
    rfl

/-- C20 at a graph of 3 glyphs: the levels 0, 4, 9, 4 pushed, and the state after four
ticks in the foreground. -/
theorem slot_alphabet_witness :
    (exampleConfig false).usage_length = 3 ∧
    run (exampleConfig false) fourTicks (Loop.init (exampleConfig false) []) =
      Step.next afterFour ∧
    (∃ ks : List Int, afterFour.graph = (ks.map glyph).foldl graphPush (graphInit 3)) ∧
    (∃ slots : List (List Nat),
      ([0, 4, 9, 4].map glyph).foldl graphPush (graphInit 3) = slots.flatten ∧
      slots.length = max 3 1 ∧ ∀ s ∈ slots, s ∈ alphabet) ∧
    ([0, 4, 9, 4].map glyph).foldl graphPush (graphInit 3) =
      [0xe2, 0x96, 0x84, 0xe2, 0x96, 0x93, 0xe2, 0x96, 0x84] :=
  ⟨rfl, by decide,
    (slot_alphabet 3 []).2.2 (exampleConfig false) [] fourTicks afterFour rfl (by decide),
    match (slot_alphabet 3 [0, 4, 9, 4]).2.1 with
    | ⟨slots, h1, h2, h3, _⟩ => ⟨slots, h1, h2, h3⟩,
    by decide⟩

end CpuUsage
